import Mathlib

/-!
Shallow embedding of the Klondike solitaire engine in `src/klondike.rs`
(crate crankstart-klondike), together with proofs about its specification.

Rust `Vec<Card>` becomes `List Card` (index 0 = bottom of a pile, last =
top, exactly as in the source).  Rust `usize` indices become `Nat`.  The
unbounded `loop`s in `Table::next_active_card`, `Table::previous_active_card`,
`Table::next_play_location` and `Table::previous_play_location` are embedded
as fuel-indexed searches; because the pile ring has 13 piles and `StackId.next`
/ `StackId.previous` are cyclic, fuel 14 covers one whole trip around the
ring, after which the Rust loop would only repeat the very same queries, so
a failing fuel-14 search corresponds exactly to divergence of the Rust loop
(lemmas below make this precise).  Operations that diverge are therefore
modelled as `Option Table`, where `none` means the Rust call never returns.
-/

set_option maxRecDepth 200000

namespace Klondike

/-- The fourteen pile identities of `StackId` in the source. -/
inductive StackId where
  | Stock
  | Waste
  | Foundation1
  | Foundation2
  | Foundation3
  | Foundation4
  | Tableau1
  | Tableau2
  | Tableau3
  | Tableau4
  | Tableau5
  | Tableau6
  | Tableau7
  | Hand
deriving DecidableEq, Repr, Fintype

/-- `StackId::next`: cyclic successor on the 13-pile ring; `Hand` is a fixed point. -/
def StackId.next : StackId → StackId
  | .Stock => .Waste
  | .Waste => .Foundation1
  | .Foundation1 => .Foundation2
  | .Foundation2 => .Foundation3
  | .Foundation3 => .Foundation4
  | .Foundation4 => .Tableau1
  | .Tableau1 => .Tableau2
  | .Tableau2 => .Tableau3
  | .Tableau3 => .Tableau4
  | .Tableau4 => .Tableau5
  | .Tableau5 => .Tableau6
  | .Tableau6 => .Tableau7
  | .Tableau7 => .Stock
  | .Hand => .Hand

/-- `StackId::previous`: cyclic predecessor on the 13-pile ring; `Hand` is a fixed point. -/
def StackId.previous : StackId → StackId
  | .Stock => .Tableau7
  | .Waste => .Stock
  | .Foundation1 => .Waste
  | .Foundation2 => .Foundation1
  | .Foundation3 => .Foundation2
  | .Foundation4 => .Foundation3
  | .Tableau1 => .Foundation4
  | .Tableau2 => .Tableau1
  | .Tableau3 => .Tableau2
  | .Tableau4 => .Tableau3
  | .Tableau5 => .Tableau4
  | .Tableau6 => .Tableau5
  | .Tableau7 => .Tableau6
  | .Hand => .Hand

/-- The five pile kinds of `StackType` in the source. -/
inductive StackType where
  | Stock
  | Waste
  | Foundation
  | Tableau
  | Hand
deriving DecidableEq, Repr, Fintype

/-- The four suits. -/
inductive Suit where
  | Diamond
  | Club
  | Heart
  | Spade
deriving DecidableEq, Repr, Fintype

/-- The two colors. -/
inductive Color where
  | Black
  | Red
deriving DecidableEq, Repr, Fintype

/-- `Suit::color`. -/
def Suit.color : Suit → Color
  | .Diamond | .Heart => .Red
  | .Club | .Spade => .Black

/-- The thirteen ranks, Ace low, King high. -/
inductive Rank where
  | Ace
  | Two
  | Three
  | Four
  | Five
  | Six
  | Seven
  | Eight
  | Nine
  | Ten
  | Jack
  | Queen
  | King
deriving DecidableEq, Repr, Fintype

/-- The numeric value of a rank (`Rank as i32` in the source: Ace = 1 .. King = 13). -/
def Rank.val : Rank → Nat
  | .Ace => 1
  | .Two => 2
  | .Three => 3
  | .Four => 4
  | .Five => 5
  | .Six => 6
  | .Seven => 7
  | .Eight => 8
  | .Nine => 9
  | .Ten => 10
  | .Jack => 11
  | .Queen => 12
  | .King => 13

/-- A playing card: suit, rank and orientation, as `struct Card` in the source. -/
structure Card where
  suit : Suit
  rank : Rank
  face_up : Bool
deriving DecidableEq, Repr

instance : Inhabited Card := ⟨⟨.Diamond, .Ace, false⟩⟩

/-- `Card::is_same_color`. -/
def Card.is_same_color (c other : Card) : Bool :=
  c.suit.color = other.suit.color

/-- `Card::is_one_below`: `other.rank - self.rank == 1` computed over the integers,
exactly as the `i32` arithmetic in the source. -/
def Card.is_one_below (c other : Card) : Bool :=
  (other.rank.val : Int) - (c.rank.val : Int) = 1

/-- A pile of cards: `struct Stack` in the source.  `cards` index 0 is the
bottom of the pile, the last element is the top. -/
structure Stack where
  stack_id : StackId
  stack_type : StackType
  cards : List Card
deriving DecidableEq, Repr

/-- Apply `f` to the last element of a list, if any.  Embeds the Rust pattern
`self.cards[self.cards.len() - 1] = ...` of mutating the top card in place. -/
def mapLast (f : Card → Card) : List Card → List Card
  | [] => []
  | [c] => [f c]
  | c :: c2 :: rest => c :: mapLast f (c2 :: rest)

namespace Stack

/-- `Stack::top_card_index`. -/
def top_card_index (s : Stack) : Nat :=
  if s.cards.isEmpty then 0 else s.cards.length - 1

/-- `Stack::bottom_card`. -/
def bottom_card (s : Stack) : Option Card :=
  match s.cards with
  | [] => none
  | c :: _ => some c

/-- `Stack::top_card`. -/
def top_card (s : Stack) : Option Card :=
  s.cards.getLast?

/-- `Stack::expose_top_card`: force the top card face-up (no-op when empty). -/
def expose_top_card (s : Stack) : Stack :=
  { s with cards := mapLast (fun c => { c with face_up := true }) s.cards }

/-- `Stack::flip_top_card`: toggle the top card's orientation (no-op when empty). -/
def flip_top_card (s : Stack) : Stack :=
  { s with cards := mapLast (fun c => { c with face_up := !c.face_up }) s.cards }

/-- Whether the card at index `i` (0-based from the bottom) is face-up;
out-of-range indices count as face-down.  The Rust loops only ever query
in-range indices, so this total version agrees with the source there. -/
def faceUpAt (cards : List Card) (i : Nat) : Bool :=
  match cards[i]? with
  | some c => c.face_up
  | none => false

/-- `Stack::previous_active_card`: the `for active_index in (0..=index).rev()`
scan for the first face-up card at or below `index`. -/
def scanBack (cards : List Card) (index : Nat) : Option Nat :=
  (List.range' 0 (index + 1)).reverse.find? (fun j => faceUpAt cards j)

/-- `Stack::next_active_card`: the `for active_index in index..=max_index`
scan for the first face-up card between `index` and `max_index`. -/
def scanFwd (cards : List Card) (index max_index : Nat) : Option Nat :=
  (List.range' index (max_index + 1 - index)).find? (fun j => faceUpAt cards j)

/-- `Stack::previous_active_card`. -/
def previous_active_card (s : Stack) (start_index : Option Nat) : Option Nat :=
  if s.cards = [] then none
  else
    let max_index := s.cards.length - 1
    match start_index with
    | some si =>
      if si = 0 then none
      else
        match s.stack_type with
        | .Stock | .Foundation | .Waste => none
        | _ => scanBack s.cards (si - 1)
    | none =>
      match s.stack_type with
      | .Stock | .Foundation | .Waste => some max_index
      | _ => scanBack s.cards max_index

/-- `Stack::next_active_card`. -/
def next_active_card (s : Stack) (start_index : Option Nat) : Option Nat :=
  if s.cards = [] then
    if s.stack_type = .Stock then some 0 else none
  else
    let max_index := s.cards.length - 1
    let index := match start_index with
      | some si => si + 1
      | none => 0
    if index ≤ max_index then
      match s.stack_type with
      | .Stock | .Foundation | .Waste => some max_index
      | _ => scanFwd s.cards index max_index
    else none

/-- `Stack::foundation_can_accept_hand`. -/
def foundation_can_accept_hand (s hand : Stack) : Bool :=
  if hand.cards.length > 1 then false
  else
    match hand.top_card with
    | some card =>
      if s.cards = [] then card.rank = .Ace
      else
        match s.top_card with
        | some tc => if card.suit = tc.suit then tc.is_one_below card else false
        | none => false
    | none => false

/-- `Stack::tableau_can_accept_hand`. -/
def tableau_can_accept_hand (s hand : Stack) : Bool :=
  match hand.bottom_card with
  | some card =>
    match s.top_card with
    | some tc => if !tc.is_same_color card then card.is_one_below tc else false
    | none => card.rank = .King
  | none => false

/-- `Stack::can_play`. -/
def can_play (s hand : Stack) : Bool :=
  match s.stack_type with
  | .Foundation => s.foundation_can_accept_hand hand
  | .Tableau => s.tableau_can_accept_hand hand
  | _ => false

end Stack

/-! ## Deck generation -/

/-- The 52 cards in the fixed enumeration order of `make_deck` before the
shuffle: suits in declaration order (Diamond, Club, Heart, Spade), for each
suit the ranks Ace..King, all face-down. -/
def baseDeck : List Card :=
  [Suit.Diamond, Suit.Club, Suit.Heart, Suit.Spade].flatMap fun s =>
    [Rank.Ace, Rank.Two, Rank.Three, Rank.Four, Rank.Five, Rank.Six, Rank.Seven,
     Rank.Eight, Rank.Nine, Rank.Ten, Rank.Jack, Rank.Queen, Rank.King].map fun r =>
      { suit := s, rank := r, face_up := false }

/-- Modelled from the spec: one step of the deterministic pseudo-random
stream driving the shuffle.  The real stream comes from the external
`rand_pcg::Pcg32` crate, which is not part of this repository; a linear
congruential generator over the 64-bit integers stands in for it. -/
def lcgStep (s : Nat) : Nat :=
  (s * 6364136223846793005 + 1442695040888963407) % (2 ^ 64)

/-- Modelled from the spec: Fisher-Yates style selection shuffle, structurally
recursive on a fuel bound (which callers set to the list length).  Each step
draws an index from the pseudo-random stream, moves that element to the front
and recurses on the rest, producing a seed-determined permutation. -/
def fyN : Nat → Nat → List Card → List Card
  | 0, _, _ => []
  | _ + 1, _, [] => []
  | n + 1, s, c :: rest =>
    let l := c :: rest
    let k := (s / 2 ^ 16) % l.length
    l.getD k default :: fyN n (lcgStep s) (l.eraseIdx k)

/-- Modelled from the spec: `make_deck(seed)` builds the 52 cards in a fixed
enumeration order, then shuffles them with a deterministic permutation keyed
by `seed`.  The shuffle implementation (`SliceRandom::shuffle` with
`rand_pcg::Pcg32`) lives in external crates missing from this repository, so
a Fisher-Yates permutation driven by an LCG stands in for it; every property
proved below depends only on the output being a seed-determined permutation
of the base deck. -/
def make_deck (seed : Nat) : List Card :=
  fyN baseDeck.length (lcgStep seed) baseDeck

/-! ## The table -/

/-- `struct Source`: the cursor, a pile identity plus a card index within it. -/
structure Source where
  stack : StackId
  index : Nat
deriving DecidableEq, Repr

/-- `Source::stock`. -/
def Source.stock : Source := ⟨.Stock, 0⟩

/-- `struct Table`.  The source stores the four foundations and the seven
tableaux as `Vec<Stack>` that are created with exactly 4 and 7 elements and
only ever accessed at the fixed indices 0..3 and 0..6 through `get_stack` /
`get_stack_mut`; they are embedded as named fields. -/
structure Table where
  stock : Stack
  waste : Stack
  in_hand : Stack
  foundation1 : Stack
  foundation2 : Stack
  foundation3 : Stack
  foundation4 : Stack
  tableau1 : Stack
  tableau2 : Stack
  tableau3 : Stack
  tableau4 : Stack
  tableau5 : Stack
  tableau6 : Stack
  tableau7 : Stack
  source : Source
  target : StackId
deriving DecidableEq, Repr

namespace Table

/-- `Table::get_stack`. -/
def get_stack (t : Table) : StackId → Stack
  | .Stock => t.stock
  | .Waste => t.waste
  | .Foundation1 => t.foundation1
  | .Foundation2 => t.foundation2
  | .Foundation3 => t.foundation3
  | .Foundation4 => t.foundation4
  | .Tableau1 => t.tableau1
  | .Tableau2 => t.tableau2
  | .Tableau3 => t.tableau3
  | .Tableau4 => t.tableau4
  | .Tableau5 => t.tableau5
  | .Tableau6 => t.tableau6
  | .Tableau7 => t.tableau7
  | .Hand => t.in_hand

/-- Writing through `Table::get_stack_mut`: replace the pile named by `id`. -/
def set_stack (t : Table) (id : StackId) (s : Stack) : Table :=
  match id with
  | .Stock => { t with stock := s }
  | .Waste => { t with waste := s }
  | .Foundation1 => { t with foundation1 := s }
  | .Foundation2 => { t with foundation2 := s }
  | .Foundation3 => { t with foundation3 := s }
  | .Foundation4 => { t with foundation4 := s }
  | .Tableau1 => { t with tableau1 := s }
  | .Tableau2 => { t with tableau2 := s }
  | .Tableau3 => { t with tableau3 := s }
  | .Tableau4 => { t with tableau4 := s }
  | .Tableau5 => { t with tableau5 := s }
  | .Tableau6 => { t with tableau6 := s }
  | .Tableau7 => { t with tableau7 := s }
  | .Hand => { t with in_hand := s }

/-- `Table::new`: shuffle a deck, deal the last 1,2,..,7 cards to the seven
tableaux (flipping each tableau's dealt-last card face-up), leave the 24
remaining cards as the stock, and point the cursor at the stock's active
card.  The Rust loop over `TABLEAUX` with `split_off` is unrolled. -/
def new (seed : Nat) : Table :=
  let cards0 := make_deck seed
  let t1c := cards0.drop (cards0.length - 1)
  let cards1 := cards0.take (cards0.length - 1)
  let t2c := cards1.drop (cards1.length - 2)
  let cards2 := cards1.take (cards1.length - 2)
  let t3c := cards2.drop (cards2.length - 3)
  let cards3 := cards2.take (cards2.length - 3)
  let t4c := cards3.drop (cards3.length - 4)
  let cards4 := cards3.take (cards3.length - 4)
  let t5c := cards4.drop (cards4.length - 5)
  let cards5 := cards4.take (cards4.length - 5)
  let t6c := cards5.drop (cards5.length - 6)
  let cards6 := cards5.take (cards5.length - 6)
  let t7c := cards6.drop (cards6.length - 7)
  let cards7 := cards6.take (cards6.length - 7)
  let stock : Stack := { stack_id := .Stock, stack_type := .Stock, cards := cards7 }
  { stock := stock
    waste := { stack_id := .Waste, stack_type := .Waste, cards := [] }
    in_hand := { stack_id := .Hand, stack_type := .Hand, cards := [] }
    foundation1 := { stack_id := .Foundation1, stack_type := .Foundation, cards := [] }
    foundation2 := { stack_id := .Foundation2, stack_type := .Foundation, cards := [] }
    foundation3 := { stack_id := .Foundation3, stack_type := .Foundation, cards := [] }
    foundation4 := { stack_id := .Foundation4, stack_type := .Foundation, cards := [] }
    tableau1 := Stack.flip_top_card { stack_id := .Tableau1, stack_type := .Tableau, cards := t1c }
    tableau2 := Stack.flip_top_card { stack_id := .Tableau2, stack_type := .Tableau, cards := t2c }
    tableau3 := Stack.flip_top_card { stack_id := .Tableau3, stack_type := .Tableau, cards := t3c }
    tableau4 := Stack.flip_top_card { stack_id := .Tableau4, stack_type := .Tableau, cards := t4c }
    tableau5 := Stack.flip_top_card { stack_id := .Tableau5, stack_type := .Tableau, cards := t5c }
    tableau6 := Stack.flip_top_card { stack_id := .Tableau6, stack_type := .Tableau, cards := t6c }
    tableau7 := Stack.flip_top_card { stack_id := .Tableau7, stack_type := .Tableau, cards := t7c }
    source := ⟨.Stock, (stock.next_active_card none).getD 0⟩
    target := .Stock }

/-- `Table::cards_in_hand`. -/
def cards_in_hand (t : Table) : Bool :=
  t.in_hand.cards.length > 0

/-- The body of the `loop` in `Table::next_active_card`, indexed by fuel:
query the current pile, and on failure move to the next pile of the ring and
restart the query with no lower bound.  The Rust loop is unbounded; since the
pile-stepping function is cyclic with period 13 (and fixes `Hand`), a search
that fails for a whole trip around the ring fails forever, so fuel 14 is
exactly enough to decide the Rust loop (see the stabilization lemmas). -/
def nextActiveSearch (t : Table) : Nat → StackId → Option Nat → Option Source
  | 0, _, _ => none
  | fuel + 1, stk, start =>
    match (t.get_stack stk).next_active_card start with
    | some i => some ⟨stk, i⟩
    | none => nextActiveSearch t fuel stk.next none

/-- The body of the `loop` in `Table::previous_active_card`, indexed by fuel. -/
def prevActiveSearch (t : Table) : Nat → StackId → Option Nat → Option Source
  | 0, _, _ => none
  | fuel + 1, stk, start =>
    match (t.get_stack stk).previous_active_card start with
    | some i => some ⟨stk, i⟩
    | none => prevActiveSearch t fuel stk.previous none

/-- `Table::next_active_card`: `none` means the Rust loop diverges. -/
def next_active_card (t : Table) : Option Source :=
  nextActiveSearch t 14 t.source.stack (some t.source.index)

/-- `Table::previous_active_card`: `none` means the Rust loop diverges. -/
def previous_active_card (t : Table) : Option Source :=
  prevActiveSearch t 14 t.source.stack (some t.source.index)

/-- The body of the `loop` in `Table::next_play_location`, indexed by fuel:
if the current candidate target can accept the hand, stop there; otherwise
step to the next pile of the ring, stopping unconditionally upon returning
to `source.stack`. -/
def nextPlaySearch (t : Table) : Nat → StackId → Option StackId
  | 0, _ => none
  | fuel + 1, tgt =>
    if (t.get_stack tgt).can_play t.in_hand then some tgt
    else
      let tgt2 := tgt.next
      if tgt2 = t.source.stack then some tgt2
      else nextPlaySearch t fuel tgt2

/-- The body of the `loop` in `Table::previous_play_location`, indexed by fuel. -/
def prevPlaySearch (t : Table) : Nat → StackId → Option StackId
  | 0, _ => none
  | fuel + 1, tgt =>
    if (t.get_stack tgt).can_play t.in_hand then some tgt
    else
      let tgt2 := tgt.previous
      if tgt2 = t.source.stack then some tgt2
      else prevPlaySearch t fuel tgt2

/-- `Table::next_play_location`: `none` means the Rust loop diverges. -/
def next_play_location (t : Table) : Option StackId :=
  nextPlaySearch t 14 t.target.next

/-- `Table::previous_play_location`: `none` means the Rust loop diverges. -/
def previous_play_location (t : Table) : Option StackId :=
  prevPlaySearch t 14 t.target.previous

/-- `Table::deal_from_stock`.  With an empty stock, swap stock and waste,
turn every card of the (new) stock face-down and reverse it; otherwise move
the top `min 3 len` cards of the stock to the top of the waste, face-up,
preserving their order. -/
def deal_from_stock (t : Table) : Table :=
  let amount_to_deal := min 3 t.stock.cards.length
  if amount_to_deal = 0 then
    { t with
      stock := { t.stock with
        cards := ((t.waste.cards.map fun c => { c with face_up := false })).reverse }
      waste := { t.waste with cards := t.stock.cards } }
  else
    let start := t.stock.cards.length - amount_to_deal
    let dealt := (t.stock.cards.drop start).map fun c => { c with face_up := true }
    { t with
      stock := { t.stock with cards := t.stock.cards.take start }
      waste := { t.waste with cards := t.waste.cards ++ dealt } }

/-- `Table::expose_top_card_of_stack`. -/
def expose_top_card_of_stack (t : Table) (id : StackId) : Table :=
  t.set_stack id ((t.get_stack id).expose_top_card)

/-- `Table::take_top_card_from_stack`: remove the top card of the named pile
(if any, i.e. when `count > 0`), force it face-up, and push it onto the hand. -/
def take_top_card_from_stack (t : Table) (id : StackId) : Table :=
  let stack := t.get_stack id
  match stack.cards.getLast? with
  | none => t
  | some c =>
    let card := { c with face_up := true }
    let t2 := t.set_stack id { stack with cards := stack.cards.dropLast }
    { t2 with in_hand := { t2.in_hand with cards := t2.in_hand.cards ++ [card] } }

/-- `Table::take_selected_cards_from_stack`: split the named pile at `index`
and, when the removed run is non-empty, install it as the hand's content
(replacing whatever the hand held).  The Rust `split_off` panics for
`index > len`; the claims only invoke this under `index ≤ len`, where
`take` / `drop` agree with it. -/
def take_selected_cards_from_stack (t : Table) (id : StackId) (index : Nat) : Table :=
  let stack := t.get_stack id
  let cards_for_hand := stack.cards.drop index
  let t2 := t.set_stack id { stack with cards := stack.cards.take index }
  if cards_for_hand.length > 0 then
    { t2 with in_hand := { t2.in_hand with cards := cards_for_hand } }
  else t2

/-- `Table::put_hand_on_target`: move the hand's cards (swapped out first)
onto the end of the target pile, then expose the top card of the pile named
by `source.stack`, then point the cursor at the first just-placed card. -/
def put_hand_on_target (t : Table) : Table :=
  let target := t.target
  let cards := t.in_hand.cards
  let t2 := { t with in_hand := { t.in_hand with cards := [] } }
  let target_stack := t2.get_stack target
  let index := target_stack.cards.length
  let t3 := t2.set_stack target { target_stack with cards := target_stack.cards ++ cards }
  let t4 := t3.expose_top_card_of_stack t3.source.stack
  { t4 with source := ⟨target, index⟩ }

/-- `Table::go_next`.  The Rust method returns `Ok(())` unconditionally and
mutates in place; the interesting value is the new state.  `none` models the
case where the inner ring search never returns (the Rust `unwrap_or_else`
fallback is dead code: the table-level searches either return `Some` or loop
forever). -/
def go_next (t : Table) : Option Table :=
  if t.cards_in_hand then
    t.next_play_location.map fun tgt => { t with target := tgt }
  else
    t.next_active_card.map fun s => { t with source := s }

/-- `Table::go_previous`. -/
def go_previous (t : Table) : Option Table :=
  if t.cards_in_hand then
    t.previous_play_location.map fun tgt => { t with target := tgt }
  else
    t.previous_active_card.map fun s => { t with source := s }

end Table

/-! ## Reachable states

The public mutating operations of `Table`, invoked under the preconditions
stated in the claims: the hand is empty before a pickup, and the index passed
to `take_selected_cards_from_stack` is within the pile's length.  A `go_next`
or `go_previous` step exists only when the call returns (`some`). -/

inductive Reachable : Table → Prop
  | new (seed : Nat) : Reachable (Table.new seed)
  | deal {t : Table} : Reachable t → Reachable t.deal_from_stock
  | expose {t : Table} (id : StackId) : Reachable t →
      Reachable (t.expose_top_card_of_stack id)
  | take_top {t : Table} (id : StackId) : Reachable t →
      t.in_hand.cards = [] → Reachable (t.take_top_card_from_stack id)
  | take_selected {t : Table} (id : StackId) (index : Nat) : Reachable t →
      t.in_hand.cards = [] → index ≤ (t.get_stack id).cards.length →
      Reachable (t.take_selected_cards_from_stack id index)
  | put {t : Table} : Reachable t → Reachable t.put_hand_on_target
  | go_next {t t2 : Table} : Reachable t → t.go_next = some t2 → Reachable t2
  | go_previous {t t2 : Table} : Reachable t → t.go_previous = some t2 → Reachable t2

/-! ## Derived notions used by the claims -/

/-- Turn a card face-up (the `card.face_up = true` assignment in `deal_from_stock`). -/
def setUp (c : Card) : Card := { c with face_up := true }

/-- Turn a card face-down (the `card.face_up = false` assignment in the recycle branch). -/
def setDown (c : Card) : Card := { c with face_up := false }

/-- The (suit, rank) pairs of a list of cards, in order. -/
def pairsL (l : List Card) : List (Suit × Rank) :=
  l.map fun c => (c.suit, c.rank)

/-- Every card on the table, over all thirteen ring piles and the hand. -/
def tableCards (t : Table) : List Card :=
  t.stock.cards ++ t.waste.cards ++
  t.foundation1.cards ++ t.foundation2.cards ++ t.foundation3.cards ++ t.foundation4.cards ++
  t.tableau1.cards ++ t.tableau2.cards ++ t.tableau3.cards ++ t.tableau4.cards ++
  t.tableau5.cards ++ t.tableau6.cards ++ t.tableau7.cards ++ t.in_hand.cards

/-- `n` successive calls of `deal_from_stock`. -/
def dealN : Nat → Table → Table
  | 0, t => t
  | n + 1, t => dealN n t.deal_from_stock

/-- Call `deal_from_stock` until the stock is empty, with a fuel bound.
Each call with a non-empty stock removes at least one card, so fuel equal to
the starting stock length always suffices. -/
def dealUntilN : Nat → Table → Table
  | 0, t => t
  | n + 1, t => if t.stock.cards = [] then t else dealUntilN n t.deal_from_stock

/-- "Calling `deal_from_stock` repeatedly until Stock is empty". -/
def deal_until_empty (t : Table) : Table :=
  dealUntilN t.stock.cards.length t

/-- The sequence in which the cards of a stock are dealt into the waste:
groups of up to three cards taken from the top, first group first, each group
keeping its internal (bottom-to-top) order.  Fuel-indexed; the fuel is set to
the list length. -/
def dealtSeqN : Nat → List Card → List Card
  | 0, _ => []
  | n + 1, l =>
    if l = [] then []
    else
      l.drop (l.length - min 3 l.length) ++ dealtSeqN n (l.take (l.length - min 3 l.length))

/-- The dealt sequence of a stock (see `dealtSeqN`). -/
def dealtSeq (l : List Card) : List Card :=
  dealtSeqN l.length l

/-- `k`-fold iteration of `StackId.next`. -/
def nextIter : Nat → StackId → StackId
  | 0, id => id
  | k + 1, id => nextIter k id.next

/-- `k`-fold iteration of `StackId.previous`. -/
def prevIter : Nat → StackId → StackId
  | 0, id => id
  | k + 1, id => prevIter k id.previous

/-- How many `StackId.next` steps a ring pile is away from `Stock`. -/
def distToStock : StackId → Nat
  | .Stock => 0
  | .Waste => 12
  | .Foundation1 => 11
  | .Foundation2 => 10
  | .Foundation3 => 9
  | .Foundation4 => 8
  | .Tableau1 => 7
  | .Tableau2 => 6
  | .Tableau3 => 5
  | .Tableau4 => 4
  | .Tableau5 => 3
  | .Tableau6 => 2
  | .Tableau7 => 1
  | .Hand => 0

/-- The pile kind that the table construction assigns to each pile identity. -/
def stackTypeOf : StackId → StackType
  | .Stock => .Stock
  | .Waste => .Waste
  | .Foundation1 | .Foundation2 | .Foundation3 | .Foundation4 => .Foundation
  | .Tableau1 | .Tableau2 | .Tableau3 | .Tableau4 | .Tableau5 | .Tableau6 | .Tableau7 => .Tableau
  | .Hand => .Hand

/-- Every pile of the table carries the kind of its identity (an invariant of
all reachable states). -/
def tableTyped (t : Table) : Prop :=
  ∀ id, (t.get_stack id).stack_type = stackTypeOf id

/-! ## Concrete tables and stacks used by counterexamples and witnesses -/

/-- An empty pile of the given identity and kind. -/
def emptyStack (id : StackId) (ty : StackType) : Stack :=
  { stack_id := id, stack_type := ty, cards := [] }

/-- A table whose thirteen ring piles are empty and typed as in the source,
with the given hand content, cursor and target. -/
def bareTable (hand : List Card) (src : Source) (tgt : StackId) : Table :=
  { stock := emptyStack .Stock .Stock
    waste := emptyStack .Waste .Waste
    in_hand := { stack_id := .Hand, stack_type := .Hand, cards := hand }
    foundation1 := emptyStack .Foundation1 .Foundation
    foundation2 := emptyStack .Foundation2 .Foundation
    foundation3 := emptyStack .Foundation3 .Foundation
    foundation4 := emptyStack .Foundation4 .Foundation
    tableau1 := emptyStack .Tableau1 .Tableau
    tableau2 := emptyStack .Tableau2 .Tableau
    tableau3 := emptyStack .Tableau3 .Tableau
    tableau4 := emptyStack .Tableau4 .Tableau
    tableau5 := emptyStack .Tableau5 .Tableau
    tableau6 := emptyStack .Tableau6 .Tableau
    tableau7 := emptyStack .Tableau7 .Tableau
    source := src
    target := tgt }

/-- A two-card waste pile: refutes the claim that a whole-pile kind never
yields an active index for `after = some i`. -/
def wasteTwo : Stack :=
  { stack_id := .Waste, stack_type := .Waste,
    cards := [⟨.Club, .Ace, true⟩, ⟨.Heart, .Five, true⟩] }

/-- A six-card face-down stock over an otherwise empty table: the deal/recycle
round trip permutes it (each dealt group of three is reversed in place). -/
def cexDealStock : Stack :=
  { stack_id := .Stock, stack_type := .Stock,
    cards := [⟨.Diamond, .Ace, false⟩, ⟨.Diamond, .Two, false⟩, ⟨.Diamond, .Three, false⟩,
              ⟨.Diamond, .Four, false⟩, ⟨.Diamond, .Five, false⟩, ⟨.Diamond, .Six, false⟩] }

def cexDealTable : Table :=
  { bareTable [] ⟨.Stock, 0⟩ .Stock with stock := cexDealStock }

/-- A carrying-mode table whose target is the hand itself: `go_next` diverges
on it even though the hand is non-empty and the source is a ring pile. -/
def cexHandTarget : Table :=
  bareTable [⟨.Spade, .Ace, true⟩] ⟨.Stock, 0⟩ .Hand

/-- A carrying-mode table with a ring target, used to witness the amended
target-search claim. -/
def carryTable : Table :=
  bareTable [⟨.Spade, .Ace, true⟩] ⟨.Stock, 0⟩ .Stock

/-- A table about to drop nothing: target is the hand and the hand holds one
card, so `put_hand_on_target` does not leave the hand empty. -/
def cexPutHand : Table :=
  bareTable [⟨.Spade, .Four, true⟩] ⟨.Stock, 0⟩ .Hand

/-- An empty foundation pile. -/
def emptyFoundation : Stack := emptyStack .Foundation1 .Foundation

/-- A hand holding a single ace. -/
def handAce : Stack :=
  { stack_id := .Hand, stack_type := .Hand, cards := [⟨.Heart, .Ace, true⟩] }

/-- An empty tableau pile. -/
def emptyTableau : Stack := emptyStack .Tableau1 .Tableau

/-- A hand holding a single king. -/
def handKing : Stack :=
  { stack_id := .Hand, stack_type := .Hand, cards := [⟨.Heart, .King, true⟩] }

/-! ## A reachable state on which `go_previous` diverges

Starting from `Table.new 7` (a seed whose shuffled deck starts with a king,
which ends at the bottom of the recycled stock below), the following public
operation sequence, legal under the claims' preconditions, parks all 52
cards face-down on Tableau1 and leaves the hand empty.  In that state every
pile reports no backward active index, so the `loop` in
`Table::previous_active_card` runs forever: the forward search is saved by
the empty stock answering index 0, but `Stack::previous_active_card` returns
`None` for an empty stock. -/

def g01 : Table := (Table.new 7).take_selected_cards_from_stack .Tableau1 0
def g02 : Table := g01.put_hand_on_target
def g03 : Table := g02.take_selected_cards_from_stack .Tableau2 0
def g04 : Table := g03.put_hand_on_target
def g05 : Table := g04.take_selected_cards_from_stack .Tableau3 0
def g06 : Table := g05.put_hand_on_target
def g07 : Table := g06.take_selected_cards_from_stack .Tableau4 0
def g08 : Table := g07.put_hand_on_target
def g09 : Table := g08.take_selected_cards_from_stack .Tableau5 0
def g10 : Table := g09.put_hand_on_target
def g11 : Table := g10.take_selected_cards_from_stack .Tableau6 0
def g12 : Table := g11.put_hand_on_target
def g13 : Table := g12.take_selected_cards_from_stack .Tableau7 0
def g14 : Table := g13.put_hand_on_target
def g15 : Table := dealN 19 g14
def g16 : Table := g15.take_selected_cards_from_stack .Stock 0
def g17 : Table := { g16 with target := StackId.Tableau1 }

/-- The reachable table on which `go_previous` loops forever. -/
def divergeTable : Table := g17.put_hand_on_target

/-! ## Basic lemmas about pile access -/

theorem get_set_self (t : Table) (id : StackId) (s : Stack) :
    (t.set_stack id s).get_stack id = s := by
  cases id <;> rfl

theorem get_set_ne (t : Table) {id id2 : StackId} (s : Stack) (h : id2 ≠ id) :
    (t.set_stack id s).get_stack id2 = t.get_stack id2 := by
  cases id <;> cases id2 <;> first | rfl | exact absurd rfl h

theorem set_stack_source (t : Table) (id : StackId) (s : Stack) :
    (t.set_stack id s).source = t.source := by
  cases id <;> rfl

theorem set_stack_target (t : Table) (id : StackId) (s : Stack) :
    (t.set_stack id s).target = t.target := by
  cases id <;> rfl

theorem get_stack_source_update (t : Table) (x : Source) (id : StackId) :
    (Table.get_stack { t with source := x } id) = t.get_stack id := by
  cases id <;> rfl

theorem get_stack_target_update (t : Table) (x : StackId) (id : StackId) :
    (Table.get_stack { t with target := x } id) = t.get_stack id := by
  cases id <;> rfl

/-! ## Lemmas about the pile ring -/

theorem nextIter_ring : ∀ id : StackId, nextIter 13 id = id := by decide

theorem next_ne_hand : ∀ id : StackId, id ≠ .Hand → id.next ≠ .Hand := by decide

theorem previous_ne_hand : ∀ id : StackId, id ≠ .Hand → id.previous ≠ .Hand := by decide

theorem distToStock_spec :
    ∀ id : StackId, id ≠ .Hand → nextIter (distToStock id) id = .Stock ∧ distToStock id < 13 := by
  decide

theorem nextIter_cover :
    ∀ a b : StackId, a ≠ .Hand → b ≠ .Hand →
      ((List.range 13).any fun k => nextIter (k + 1) a == b) = true := by
  decide

theorem prevIter_cover :
    ∀ a b : StackId, a ≠ .Hand → b ≠ .Hand →
      ((List.range 13).any fun k => prevIter (k + 1) a == b) = true := by
  decide

/-! ## Claim C10: the deal touches only stock and waste -/

/-- C10: in both branches of `deal_from_stock` (dealing up to 3 cards, and
recycling the waste into the stock) the four foundations, the seven tableaux,
the hand, `source` and `target` are unchanged. -/
theorem C10_deal_frame (t : Table) :
    t.deal_from_stock.foundation1 = t.foundation1 ∧
    t.deal_from_stock.foundation2 = t.foundation2 ∧
    t.deal_from_stock.foundation3 = t.foundation3 ∧
    t.deal_from_stock.foundation4 = t.foundation4 ∧
    t.deal_from_stock.tableau1 = t.tableau1 ∧
    t.deal_from_stock.tableau2 = t.tableau2 ∧
    t.deal_from_stock.tableau3 = t.tableau3 ∧
    t.deal_from_stock.tableau4 = t.tableau4 ∧
    t.deal_from_stock.tableau5 = t.tableau5 ∧
    t.deal_from_stock.tableau6 = t.tableau6 ∧
    t.deal_from_stock.tableau7 = t.tableau7 ∧
    t.deal_from_stock.in_hand = t.in_hand ∧
    t.deal_from_stock.source = t.source ∧
    t.deal_from_stock.target = t.target := by
  simp only [Table.deal_from_stock]
  split
  · exact ⟨rfl, rfl, rfl, rfl, rfl, rfl, rfl, rfl, rfl, rfl, rfl, rfl, rfl, rfl⟩
  · exact ⟨rfl, rfl, rfl, rfl, rfl, rfl, rfl, rfl, rfl, rfl, rfl, rfl, rfl, rfl⟩

/-! ## Claim C4: active indices of the whole-pile kinds -/

/-- C4 counterexample: the claim says `next_active_card (some i)` returns
`none` on a non-empty whole-pile kind for every `i`, but on a two-card waste
pile the source returns the top index for `after = some 0` (the code answers
`Some(max_index)` whenever `start_index + 1 <= max_index`). -/
theorem C4_cex :
    wasteTwo.cards ≠ [] ∧ wasteTwo.stack_type = .Waste ∧
    wasteTwo.next_active_card (some 0) = some 1 := by
  decide

/-- C4 (amended): for a non-empty pile of kind Stock, Waste or Foundation,
`next_active_card` returns the top index when `after` is `none` or when
`after = some i` with `i + 1 ≤ top`, and `none` when `i + 1 > top`;
`previous_active_card` returns the top index when `before` is `none` and
`none` for every `before = some i`. -/
theorem C4_whole_pile_active (s : Stack) (h : s.cards ≠ [])
    (hty : s.stack_type = .Stock ∨ s.stack_type = .Waste ∨ s.stack_type = .Foundation) :
    s.next_active_card none = some (s.cards.length - 1)
  ∧ (∀ i, i + 1 ≤ s.cards.length - 1 → s.next_active_card (some i) = some (s.cards.length - 1))
  ∧ (∀ i, s.cards.length - 1 < i + 1 → s.next_active_card (some i) = none)
  ∧ s.previous_active_card none = some (s.cards.length - 1)
  ∧ (∀ i, s.previous_active_card (some i) = none) := by
  refine ⟨?_, ?_, ?_, ?_, ?_⟩ <;>
    rcases hty with h1 | h1 | h1 <;>
      simp [Stack.next_active_card, Stack.previous_active_card, h, h1]

/-- Witness for `C4_whole_pile_active` at the concrete two-card waste pile. -/
theorem C4_whole_pile_active_witness :
    wasteTwo.previous_active_card none = some 1 ∧ wasteTwo.previous_active_card (some 1) = none := by
  have h := C4_whole_pile_active wasteTwo (by decide) (by decide)
  exact ⟨h.2.2.2.1, h.2.2.2.2 1⟩

/-! ## Claims C5 and C6: acceptance rules -/

/-- C5: a foundation (and `can_play` on a foundation) rejects an empty hand
and a hand of more than one card, and accepts a single card `c` exactly when
the foundation is empty and `c` is an ace, or the foundation's top card has
`c`'s suit and sits exactly one rank below `c`. -/
theorem C5_foundation_accept (F hand : Stack) (hF : F.stack_type = .Foundation) :
    F.can_play hand = F.foundation_can_accept_hand hand
  ∧ (hand.cards = [] → F.foundation_can_accept_hand hand = false)
  ∧ (∀ c c2 rest, hand.cards = c :: c2 :: rest → F.foundation_can_accept_hand hand = false)
  ∧ (∀ c, hand.cards = [c] →
      (F.foundation_can_accept_hand hand = true ↔
        (F.cards = [] ∧ c.rank = .Ace) ∨
        (∃ tc, F.top_card = some tc ∧ c.suit = tc.suit ∧ c.rank.val = tc.rank.val + 1))) := by
  refine ⟨by simp [Stack.can_play, hF], ?_, ?_, ?_⟩
  · intro hc
    simp [Stack.foundation_can_accept_hand, Stack.top_card, hc]
  · intro c c2 rest hc
    simp [Stack.foundation_can_accept_hand, hc]
  · intro c hc
    by_cases hF2 : F.cards = []
    · simp [Stack.foundation_can_accept_hand, Stack.top_card, hc, hF2]
    · have htc : ∃ tc, F.cards.getLast? = some tc := by
        cases hg : F.cards.getLast? with
        | none => exact absurd (List.getLast?_eq_none_iff.mp hg) hF2
        | some tc => exact ⟨tc, rfl⟩
      obtain ⟨tc, htc⟩ := htc
      simp [Stack.foundation_can_accept_hand, Stack.top_card, hc, hF2, htc, Card.is_one_below]
      intro _
      omega

/-- Witness for `C5_foundation_accept`: an empty foundation accepts a lone ace. -/
theorem C5_foundation_accept_witness :
    emptyFoundation.foundation_can_accept_hand handAce = true := by
  have h := C5_foundation_accept emptyFoundation handAce rfl
  exact (h.2.2.2 _ rfl).mpr (Or.inl ⟨rfl, rfl⟩)

/-- C6: a tableau (and `can_play` on a tableau) rejects an empty hand, and
accepts a non-empty hand with bottom card `c` exactly when the tableau is
empty and `c` is a king, or the tableau's top card has the opposite color of
`c` and sits exactly one rank above `c`. -/
theorem C6_tableau_accept (T hand : Stack) (hT : T.stack_type = .Tableau) :
    T.can_play hand = T.tableau_can_accept_hand hand
  ∧ (hand.cards = [] → T.tableau_can_accept_hand hand = false)
  ∧ (∀ c rest, hand.cards = c :: rest →
      (T.tableau_can_accept_hand hand = true ↔
        (T.cards = [] ∧ c.rank = .King) ∨
        (∃ tc, T.top_card = some tc ∧ tc.suit.color ≠ c.suit.color ∧
          tc.rank.val = c.rank.val + 1))) := by
  refine ⟨by simp [Stack.can_play, hT], ?_, ?_⟩
  · intro hc
    simp [Stack.tableau_can_accept_hand, Stack.bottom_card, hc]
  · intro c rest hc
    by_cases hT2 : T.cards = []
    · simp [Stack.tableau_can_accept_hand, Stack.bottom_card, Stack.top_card, hc, hT2]
    · have htc : ∃ tc, T.cards.getLast? = some tc := by
        cases hg : T.cards.getLast? with
        | none => exact absurd (List.getLast?_eq_none_iff.mp hg) hT2
        | some tc => exact ⟨tc, rfl⟩
      obtain ⟨tc, htc⟩ := htc
      simp [Stack.tableau_can_accept_hand, Stack.bottom_card, Stack.top_card, hc, hT2, htc,
        Card.is_same_color, Card.is_one_below]
      intro _
      omega

/-- Witness for `C6_tableau_accept`: an empty tableau accepts a hand whose
bottom card is a king. -/
theorem C6_tableau_accept_witness :
    emptyTableau.tableau_can_accept_hand handKing = true := by
  have h := C6_tableau_accept emptyTableau handKing rfl
  exact (h.2.2 _ _ rfl).mpr (Or.inl ⟨rfl, rfl⟩)

/-! ## The effect of `put_hand_on_target` -/

theorem stack_mk_eta (s : Stack) : Stack.mk s.stack_id s.stack_type s.cards = s := rfl

theorem set_stack_get (t : Table) (id : StackId) : t.set_stack id (t.get_stack id) = t := by
  cases id <;> rfl

theorem get_set (t : Table) (id id2 : StackId) (s : Stack) :
    (t.set_stack id s).get_stack id2 = if id2 = id then s else t.get_stack id2 := by
  cases id <;> cases id2 <;> rfl

theorem get_stack_hand_update (t : Table) (s : Stack) (id : StackId) :
    (Table.get_stack { t with in_hand := s } id) = if id = .Hand then s else t.get_stack id := by
  cases id <;> rfl

theorem in_hand_get (t : Table) : t.in_hand = t.get_stack .Hand := rfl

theorem getLast?_mapLast (f : Card → Card) (l : List Card) :
    (mapLast f l).getLast? = l.getLast?.map f := by
  induction l with
  | nil => rfl
  | cons c rest ih =>
    cases rest with
    | nil => rfl
    | cons c2 rest2 =>
      rw [mapLast]
      obtain ⟨c3, l3, h3⟩ : ∃ c3 l3, mapLast f (c2 :: rest2) = c3 :: l3 := by
        cases rest2 <;> exact ⟨_, _, rfl⟩
      rw [h3, List.getLast?_cons_cons, ← h3, ih, List.getLast?_cons_cons]

/-- What every pile looks like after `put_hand_on_target`: the hand is
emptied, the old hand content is appended to the target pile, and the pile
named by the (old) cursor has its top card exposed. -/
theorem put_get (t : Table) (id : StackId) :
    (t.put_hand_on_target).get_stack id =
      (let g1 : StackId → Stack := fun j =>
        if j = StackId.Hand then { t.in_hand with cards := [] } else t.get_stack j
      let g2 : StackId → Stack := fun j =>
        if j = t.target then { g1 t.target with cards := (g1 t.target).cards ++ t.in_hand.cards }
        else g1 j
      if id = t.source.stack then (g2 id).expose_top_card else g2 id) := by
  simp only [Table.put_hand_on_target, Table.expose_top_card_of_stack]
  simp only [set_stack_source]
  simp only [get_stack_source_update]
  simp only [get_set]
  simp only [get_stack_hand_update]
  by_cases h : id = t.source.stack
  · subst h
    rfl
  · simp [h]

theorem put_source (t : Table) :
    (t.put_hand_on_target).source =
      ⟨t.target, (Table.get_stack { t with in_hand := { t.in_hand with cards := [] } } t.target).cards.length⟩ :=
  rfl

/-! ## Claim C7: the drop effect -/

/-- C7 counterexample: the claim quantifies over every table state, but when
`target` is `Hand` the swapped-out hand cards are appended right back into
the hand, so `put_hand_on_target` does not leave the hand empty. -/
theorem C7_cex :
    cexPutHand.in_hand.cards ≠ [] ∧ cexPutHand.target = .Hand ∧
    (cexPutHand.put_hand_on_target).in_hand.cards = cexPutHand.in_hand.cards := by
  decide

/-- C7 (amended): for every table whose target is not the hand,
`put_hand_on_target` appends all of the hand's cards, in order, onto the
target pile (whose top card is additionally forced face-up when the cursor
already pointed at the target pile), leaves the hand empty, forces the top
card of the pile named by `source.stack` face-up, resets `source` to the
target pile at the index the target pile had before the append, and changes
no other pile. -/
theorem C7_drop_effect (t : Table) (h : t.target ≠ .Hand) :
    (t.put_hand_on_target).in_hand.cards = []
  ∧ (t.put_hand_on_target).source = ⟨t.target, (t.get_stack t.target).cards.length⟩
  ∧ ((t.put_hand_on_target).get_stack t.target).cards =
      (if t.source.stack = t.target
       then mapLast (fun c => { c with face_up := true })
              ((t.get_stack t.target).cards ++ t.in_hand.cards)
       else (t.get_stack t.target).cards ++ t.in_hand.cards)
  ∧ (∀ c, ((t.put_hand_on_target).get_stack t.source.stack).cards.getLast? = some c →
      c.face_up = true)
  ∧ (∀ id, id ≠ t.target → id ≠ t.source.stack → id ≠ .Hand →
      (t.put_hand_on_target).get_stack id = t.get_stack id) := by
  have hne : (StackId.Hand : StackId) ≠ t.target := fun hh => h hh.symm
  refine ⟨?_, ?_, ?_, ?_, ?_⟩
  · rw [in_hand_get, put_get]
    simp only [if_neg hne, if_pos rfl]
    by_cases hs : StackId.Hand = t.source.stack
    · rw [if_pos hs]
      simp [Stack.expose_top_card, mapLast]
    · rw [if_neg hs]
      simp
  · rw [put_source, get_stack_hand_update, if_neg h]
  · rw [put_get]
    by_cases hs : t.target = t.source.stack
    · simp only [if_pos hs, if_neg h, ← hs, if_pos rfl]
      simp [Stack.expose_top_card]
    · have hs2 : ¬ (t.source.stack = t.target) := fun hh => hs hh.symm
      simp only [if_neg hs, if_neg h, if_neg hs2]
      simp
  · intro c hc
    rw [put_get] at hc
    by_cases h1 : t.source.stack = t.target <;>
      by_cases h2 : t.source.stack = .Hand <;>
        by_cases h3 : t.target = .Hand <;>
          simp [h1, h2, h3, Stack.expose_top_card, getLast?_mapLast, mapLast,
            Option.map_eq_some'] at hc <;>
          (obtain ⟨c2, hc2, hc3⟩ := hc
           subst hc3
           rfl)
  · intro id h1 h2 h3
    rw [put_get]
    simp only [if_neg h1, if_neg h2, if_neg h3]

/-- Witness for `C7_drop_effect` at a concrete one-card drop. -/
theorem C7_drop_effect_witness :
    (carryTable.put_hand_on_target).in_hand.cards = []
  ∧ (carryTable.put_hand_on_target).source = ⟨.Stock, 0⟩
  ∧ (carryTable.put_hand_on_target).get_stack .Waste = carryTable.get_stack .Waste := by
  have h := C7_drop_effect carryTable (by decide)
  exact ⟨h.1, h.2.1, h.2.2.2.2 .Waste (by decide) (by decide) (by decide)⟩

/-! ## Claim C9: dropping an empty hand -/

/-- C9 counterexample: on the freshly dealt table `Table.new 5` the hand is
empty and the cursor points at the stock, whose top card is face-down;
`put_hand_on_target` still exposes that card, so the stock pile does not
stay unchanged (the claim says every pile's cards are left unchanged). -/
theorem C9_cex :
    (Table.new 5).in_hand.cards = [] ∧
    (Table.new 5).put_hand_on_target.stock.cards ≠ (Table.new 5).stock.cards := by
  decide

/-- C9 (amended): with an empty hand `put_hand_on_target` appends zero cards
and leaves every pile unchanged except that the top card of the pile named by
`source.stack` is still forced face-up, and it resets `source` to the target
pile at that pile's length. -/
theorem C9_empty_hand_put (t : Table) (h : t.in_hand.cards = []) :
    t.put_hand_on_target =
      { t.expose_top_card_of_stack t.source.stack with
        source := ⟨t.target, (t.get_stack t.target).cards.length⟩ } := by
  have ht2 : ({ t with in_hand := { t.in_hand with cards := [] } } : Table) = t := by
    rw [← h]
  simp only [Table.put_hand_on_target, ht2, h, List.append_nil, stack_mk_eta, set_stack_get]

/-! ## Claim C8: the carrying-mode target search -/

theorem nextPlaySearch_stops (t : Table) :
    ∀ k tgt, nextIter (k + 1) tgt = t.source.stack → ∀ fuel, k < fuel →
      ∃ r, t.nextPlaySearch fuel tgt = some r ∧
        ((t.get_stack r).can_play t.in_hand = true ∨ r = t.source.stack) := by
  intro k
  induction k with
  | zero =>
    intro tgt hiter fuel hf
    match fuel, hf with
    | f + 1, _ =>
      by_cases hp : (t.get_stack tgt).can_play t.in_hand
      · exact ⟨tgt, by simp [Table.nextPlaySearch, hp], Or.inl hp⟩
      · have he : tgt.next = t.source.stack := hiter
        exact ⟨tgt.next, by simp [Table.nextPlaySearch, hp, he], Or.inr he⟩
  | succ k ih =>
    intro tgt hiter fuel hf
    match fuel, hf with
    | f + 1, hf =>
      by_cases hp : (t.get_stack tgt).can_play t.in_hand
      · exact ⟨tgt, by simp [Table.nextPlaySearch, hp], Or.inl hp⟩
      · by_cases he : tgt.next = t.source.stack
        · exact ⟨tgt.next, by simp [Table.nextPlaySearch, hp, he], Or.inr he⟩
        · obtain ⟨r, hr, hd⟩ := ih tgt.next hiter f (by omega)
          exact ⟨r, by simp [Table.nextPlaySearch, hp, he, hr], hd⟩

theorem prevPlaySearch_stops (t : Table) :
    ∀ k tgt, prevIter (k + 1) tgt = t.source.stack → ∀ fuel, k < fuel →
      ∃ r, t.prevPlaySearch fuel tgt = some r ∧
        ((t.get_stack r).can_play t.in_hand = true ∨ r = t.source.stack) := by
  intro k
  induction k with
  | zero =>
    intro tgt hiter fuel hf
    match fuel, hf with
    | f + 1, _ =>
      by_cases hp : (t.get_stack tgt).can_play t.in_hand
      · exact ⟨tgt, by simp [Table.prevPlaySearch, hp], Or.inl hp⟩
      · have he : tgt.previous = t.source.stack := hiter
        exact ⟨tgt.previous, by simp [Table.prevPlaySearch, hp, he], Or.inr he⟩
  | succ k ih =>
    intro tgt hiter fuel hf
    match fuel, hf with
    | f + 1, hf =>
      by_cases hp : (t.get_stack tgt).can_play t.in_hand
      · exact ⟨tgt, by simp [Table.prevPlaySearch, hp], Or.inl hp⟩
      · by_cases he : tgt.previous = t.source.stack
        · exact ⟨tgt.previous, by simp [Table.prevPlaySearch, hp, he], Or.inr he⟩
        · obtain ⟨r, hr, hd⟩ := ih tgt.previous hiter f (by omega)
          exact ⟨r, by simp [Table.prevPlaySearch, hp, he, hr], hd⟩

theorem exists_nextIter_bound (a b : StackId) (ha : a ≠ .Hand) (hb : b ≠ .Hand) :
    ∃ k, k < 13 ∧ nextIter (k + 1) a = b := by
  have h := nextIter_cover a b ha hb
  rw [List.any_eq_true] at h
  obtain ⟨k, hk, he⟩ := h
  exact ⟨k, List.mem_range.mp hk, by simpa using he⟩

theorem exists_prevIter_bound (a b : StackId) (ha : a ≠ .Hand) (hb : b ≠ .Hand) :
    ∃ k, k < 13 ∧ prevIter (k + 1) a = b := by
  have h := prevIter_cover a b ha hb
  rw [List.any_eq_true] at h
  obtain ⟨k, hk, he⟩ := h
  exact ⟨k, List.mem_range.mp hk, by simpa using he⟩

/-- With the hand pile stuck as the candidate target, the play-location loop
never stops, at any fuel: `Hand.next() = Hand`, the hand can never accept
itself, and the equality break never fires when the cursor is a ring pile. -/
theorem nextPlaySearch_hand_diverges (t : Table) (hsrc : t.source.stack ≠ .Hand)
    (hhand : t.in_hand.stack_type = .Hand) :
    ∀ fuel, t.nextPlaySearch fuel .Hand = none := by
  intro fuel
  induction fuel with
  | zero => rfl
  | succ f ih =>
    have hcp : (t.get_stack .Hand).can_play t.in_hand = false := by
      rw [← in_hand_get, Stack.can_play, hhand]
    have hne : (StackId.Hand).next ≠ t.source.stack := fun hh => hsrc hh.symm
    rw [Table.nextPlaySearch]
    simp only [hcp, Bool.false_eq_true, if_false]
    rw [if_neg hne]
    exact ih

/-- C8 counterexample: a table state with a non-empty hand and a ring-pile
cursor on which `go_next` nevertheless fails to terminate (`target` is the
hand pile; `nextPlaySearch_hand_diverges` shows `none` here means the Rust
loop really runs forever). -/
theorem C8_cex :
    cexHandTarget.in_hand.cards ≠ [] ∧ cexHandTarget.source.stack ≠ .Hand ∧
    cexHandTarget.go_next = none := by
  decide

/-- C8 (amended): with a non-empty hand, a ring-pile cursor, and a ring-pile
target, `go_next` and `go_previous` terminate, and the resulting target
either accepts the held cards or equals `source.stack` (the search stops
unconditionally upon returning to the cursor pile), so the result need not
be a legal destination. -/
theorem C8_target_search (t : Table) (h1 : t.in_hand.cards ≠ [])
    (h2 : t.source.stack ≠ .Hand) (h3 : t.target ≠ .Hand) :
    (∃ t2, t.go_next = some t2 ∧
      ((t2.get_stack t2.target).can_play t2.in_hand = true ∨ t2.target = t.source.stack))
  ∧ (∃ t2, t.go_previous = some t2 ∧
      ((t2.get_stack t2.target).can_play t2.in_hand = true ∨ t2.target = t.source.stack)) := by
  have hih : t.cards_in_hand = true := by
    simp [Table.cards_in_hand, List.length_pos, h1]
  constructor
  · obtain ⟨k, hk, hiter⟩ := exists_nextIter_bound t.target.next t.source.stack
      (next_ne_hand _ h3) h2
    obtain ⟨r, hr, hd⟩ := nextPlaySearch_stops t k t.target.next hiter 14 (by omega)
    refine ⟨{ t with target := r }, ?_, ?_⟩
    · simp [Table.go_next, hih, Table.next_play_location, hr]
    · simpa [get_stack_target_update] using hd
  · obtain ⟨k, hk, hiter⟩ := exists_prevIter_bound t.target.previous t.source.stack
      (previous_ne_hand _ h3) h2
    obtain ⟨r, hr, hd⟩ := prevPlaySearch_stops t k t.target.previous hiter 14 (by omega)
    refine ⟨{ t with target := r }, ?_, ?_⟩
    · simp [Table.go_previous, hih, Table.previous_play_location, hr]
    · simpa [get_stack_target_update] using hd

/-- Witness for `C8_target_search` at a concrete carrying-mode table. -/
theorem C8_target_search_witness :
    (∃ t2, carryTable.go_next = some t2 ∧
      ((t2.get_stack t2.target).can_play t2.in_hand = true ∨ t2.target = carryTable.source.stack))
  ∧ (∃ t2, carryTable.go_previous = some t2 ∧
      ((t2.get_stack t2.target).can_play t2.in_hand = true ∨
        t2.target = carryTable.source.stack)) :=
  C8_target_search carryTable (by decide) (by decide) (by decide)

/-- Witness for `C9_empty_hand_put` at a freshly dealt table. -/
theorem C9_empty_hand_put_witness :
    (Table.new 3).put_hand_on_target =
      { (Table.new 3).expose_top_card_of_stack (Table.new 3).source.stack with
        source := ⟨(Table.new 3).target, ((Table.new 3).get_stack (Table.new 3).target).cards.length⟩ } :=
  C9_empty_hand_put (Table.new 3) (by decide)

/-! ## Invariants of reachable states -/

theorem hand_update_as_set (t : Table) (s : Stack) :
    ({ t with in_hand := s } : Table) = t.set_stack .Hand s := rfl

theorem set_type (t : Table) (id : StackId) (s : Stack)
    (h : s.stack_type = (t.get_stack id).stack_type) (id2 : StackId) :
    ((t.set_stack id s).get_stack id2).stack_type = (t.get_stack id2).stack_type := by
  rw [get_set]
  by_cases h2 : id2 = id
  · rw [if_pos h2, h2, h]
  · rw [if_neg h2]

theorem set_cards_type (t : Table) (id : StackId) (cards : List Card) (id2 : StackId) :
    ((t.set_stack id { t.get_stack id with cards := cards }).get_stack id2).stack_type
      = (t.get_stack id2).stack_type :=
  set_type t id { t.get_stack id with cards := cards } rfl id2

theorem set_hand_cards_type (t : Table) (cards : List Card) (id2 : StackId) :
    ((t.set_stack .Hand { t.in_hand with cards := cards }).get_stack id2).stack_type
      = (t.get_stack id2).stack_type :=
  set_type t .Hand { t.in_hand with cards := cards } rfl id2

theorem set_expose_type (t : Table) (id : StackId) (id2 : StackId) :
    ((t.set_stack id ((t.get_stack id).expose_top_card)).get_stack id2).stack_type
      = (t.get_stack id2).stack_type :=
  set_type t id ((t.get_stack id).expose_top_card) rfl id2

theorem deal_get_type (t : Table) (id : StackId) :
    ((t.deal_from_stock).get_stack id).stack_type = (t.get_stack id).stack_type := by
  simp only [Table.deal_from_stock]
  split <;> cases id <;> rfl

theorem deal_source (t : Table) : (t.deal_from_stock).source = t.source := by
  simp only [Table.deal_from_stock]
  split <;> rfl

theorem deal_target (t : Table) : (t.deal_from_stock).target = t.target := by
  simp only [Table.deal_from_stock]
  split <;> rfl

theorem expose_get_type (t : Table) (id id2 : StackId) :
    ((t.expose_top_card_of_stack id).get_stack id2).stack_type = (t.get_stack id2).stack_type := by
  simp only [Table.expose_top_card_of_stack]
  rw [set_expose_type]

theorem take_top_get_type (t : Table) (id id2 : StackId) :
    ((t.take_top_card_from_stack id).get_stack id2).stack_type = (t.get_stack id2).stack_type := by
  simp only [Table.take_top_card_from_stack]
  split
  · rfl
  · rw [hand_update_as_set, set_hand_cards_type, set_cards_type]

theorem take_top_source (t : Table) (id : StackId) :
    (t.take_top_card_from_stack id).source = t.source := by
  simp only [Table.take_top_card_from_stack]
  split
  · rfl
  · rw [hand_update_as_set, set_stack_source, set_stack_source]

theorem take_top_target (t : Table) (id : StackId) :
    (t.take_top_card_from_stack id).target = t.target := by
  simp only [Table.take_top_card_from_stack]
  split
  · rfl
  · rw [hand_update_as_set, set_stack_target, set_stack_target]

theorem take_selected_get_type (t : Table) (id : StackId) (index : Nat) (id2 : StackId) :
    ((t.take_selected_cards_from_stack id index).get_stack id2).stack_type =
      (t.get_stack id2).stack_type := by
  simp only [Table.take_selected_cards_from_stack]
  split
  · rw [hand_update_as_set, set_hand_cards_type, set_cards_type]
  · rw [set_cards_type]

theorem take_selected_source (t : Table) (id : StackId) (index : Nat) :
    (t.take_selected_cards_from_stack id index).source = t.source := by
  simp only [Table.take_selected_cards_from_stack]
  split
  · rw [hand_update_as_set, set_stack_source, set_stack_source]
  · rw [set_stack_source]

theorem take_selected_target (t : Table) (id : StackId) (index : Nat) :
    (t.take_selected_cards_from_stack id index).target = t.target := by
  simp only [Table.take_selected_cards_from_stack]
  split
  · rw [hand_update_as_set, set_stack_target, set_stack_target]
  · rw [set_stack_target]

theorem put_get_type (t : Table) (id2 : StackId) :
    ((t.put_hand_on_target).get_stack id2).stack_type = (t.get_stack id2).stack_type := by
  simp only [Table.put_hand_on_target, Table.expose_top_card_of_stack]
  rw [get_stack_source_update]
  rw [set_expose_type]
  rw [set_cards_type]
  rw [hand_update_as_set, set_hand_cards_type]

theorem put_target (t : Table) : (t.put_hand_on_target).target = t.target := by
  simp only [Table.put_hand_on_target, Table.expose_top_card_of_stack]
  rw [set_stack_target, set_stack_target]

theorem put_source_stack (t : Table) : (t.put_hand_on_target).source.stack = t.target := by
  rw [put_source]

theorem nextPlaySearch_ne_hand (t : Table) :
    ∀ fuel tgt r, t.nextPlaySearch fuel tgt = some r → tgt ≠ .Hand →
      t.source.stack ≠ .Hand → r ≠ .Hand := by
  intro fuel
  induction fuel with
  | zero => intro tgt r h; exact absurd h (by simp [Table.nextPlaySearch])
  | succ f ih =>
    intro tgt r h htgt hsrc
    rw [Table.nextPlaySearch] at h
    by_cases hp : (t.get_stack tgt).can_play t.in_hand
    · rw [if_pos hp] at h
      cases h
      exact htgt
    · rw [if_neg hp] at h
      by_cases he : tgt.next = t.source.stack
      · simp only [he, if_pos rfl] at h
        cases h
        exact hsrc
      · simp only [if_neg he] at h
        exact ih tgt.next r h (next_ne_hand _ htgt) hsrc

theorem prevPlaySearch_ne_hand (t : Table) :
    ∀ fuel tgt r, t.prevPlaySearch fuel tgt = some r → tgt ≠ .Hand →
      t.source.stack ≠ .Hand → r ≠ .Hand := by
  intro fuel
  induction fuel with
  | zero => intro tgt r h; exact absurd h (by simp [Table.prevPlaySearch])
  | succ f ih =>
    intro tgt r h htgt hsrc
    rw [Table.prevPlaySearch] at h
    by_cases hp : (t.get_stack tgt).can_play t.in_hand
    · rw [if_pos hp] at h
      cases h
      exact htgt
    · rw [if_neg hp] at h
      by_cases he : tgt.previous = t.source.stack
      · simp only [he, if_pos rfl] at h
        cases h
        exact hsrc
      · simp only [if_neg he] at h
        exact ih tgt.previous r h (previous_ne_hand _ htgt) hsrc

theorem nextActiveSearch_ne_hand (t : Table) :
    ∀ fuel stk start s, t.nextActiveSearch fuel stk start = some s → stk ≠ .Hand →
      s.stack ≠ .Hand := by
  intro fuel
  induction fuel with
  | zero => intro stk start s h; exact absurd h (by simp [Table.nextActiveSearch])
  | succ f ih =>
    intro stk start s h hstk
    rw [Table.nextActiveSearch] at h
    cases hq : (t.get_stack stk).next_active_card start with
    | some i =>
      rw [hq] at h
      cases h
      exact hstk
    | none =>
      rw [hq] at h
      exact ih stk.next none s h (next_ne_hand _ hstk)

theorem prevActiveSearch_ne_hand (t : Table) :
    ∀ fuel stk start s, t.prevActiveSearch fuel stk start = some s → stk ≠ .Hand →
      s.stack ≠ .Hand := by
  intro fuel
  induction fuel with
  | zero => intro stk start s h; exact absurd h (by simp [Table.prevActiveSearch])
  | succ f ih =>
    intro stk start s h hstk
    rw [Table.prevActiveSearch] at h
    cases hq : (t.get_stack stk).previous_active_card start with
    | some i =>
      rw [hq] at h
      cases h
      exact hstk
    | none =>
      rw [hq] at h
      exact ih stk.previous none s h (previous_ne_hand _ hstk)

/-- The three structural invariants of reachable tables: every pile carries
the kind of its identity, and neither the cursor pile nor the target is the
hand. -/
theorem reachable_invariant {t : Table} (h : Reachable t) :
    tableTyped t ∧ t.source.stack ≠ .Hand ∧ t.target ≠ .Hand := by
  induction h with
  | new seed =>
    refine ⟨fun id => ?_, fun hh => StackId.noConfusion hh, fun hh => StackId.noConfusion hh⟩
    cases id <;> rfl
  | deal _ ih =>
    refine ⟨fun id => ?_, ?_, ?_⟩
    · rw [deal_get_type]; exact ih.1 id
    · rw [deal_source]; exact ih.2.1
    · rw [deal_target]; exact ih.2.2
  | expose id _ ih =>
    refine ⟨fun id2 => ?_, ?_, ?_⟩
    · rw [expose_get_type]; exact ih.1 id2
    · rw [Table.expose_top_card_of_stack, set_stack_source]; exact ih.2.1
    · rw [Table.expose_top_card_of_stack, set_stack_target]; exact ih.2.2
  | take_top id _ _ ih =>
    refine ⟨fun id2 => ?_, ?_, ?_⟩
    · rw [take_top_get_type]; exact ih.1 id2
    · rw [take_top_source]; exact ih.2.1
    · rw [take_top_target]; exact ih.2.2
  | take_selected id index _ _ _ ih =>
    refine ⟨fun id2 => ?_, ?_, ?_⟩
    · rw [take_selected_get_type]; exact ih.1 id2
    · rw [take_selected_source]; exact ih.2.1
    · rw [take_selected_target]; exact ih.2.2
  | put _ ih =>
    refine ⟨fun id2 => ?_, ?_, ?_⟩
    · rw [put_get_type]; exact ih.1 id2
    · rw [put_source_stack]; exact ih.2.2
    · rw [put_target]; exact ih.2.2
  | go_next _ hg ih =>
    rw [Table.go_next] at hg
    split at hg
    · obtain ⟨r, hr, rfl⟩ := Option.map_eq_some'.mp hg
      refine ⟨fun id2 => ?_, ih.2.1, ?_⟩
      · rw [get_stack_target_update]; exact ih.1 id2
      · exact nextPlaySearch_ne_hand _ _ _ _ hr (next_ne_hand _ ih.2.2) ih.2.1
    · obtain ⟨s, hs, rfl⟩ := Option.map_eq_some'.mp hg
      refine ⟨fun id2 => ?_, ?_, ih.2.2⟩
      · rw [get_stack_source_update]; exact ih.1 id2
      · exact nextActiveSearch_ne_hand _ _ _ _ _ hs ih.2.1
  | go_previous _ hg ih =>
    rw [Table.go_previous] at hg
    split at hg
    · obtain ⟨r, hr, rfl⟩ := Option.map_eq_some'.mp hg
      refine ⟨fun id2 => ?_, ih.2.1, ?_⟩
      · rw [get_stack_target_update]; exact ih.1 id2
      · exact prevPlaySearch_ne_hand _ _ _ _ hr (previous_ne_hand _ ih.2.2) ih.2.1
    · obtain ⟨s, hs, rfl⟩ := Option.map_eq_some'.mp hg
      refine ⟨fun id2 => ?_, ?_, ih.2.2⟩
      · rw [get_stack_source_update]; exact ih.1 id2
      · exact prevActiveSearch_ne_hand _ _ _ _ _ hs ih.2.1

/-! ## Claim C3: termination of the Selecting-mode ring searches -/

/-- A stock-kind pile always answers the forward query with no lower bound:
index 0 when empty, the top index otherwise. -/
theorem stock_next_query (s : Stack) (h : s.stack_type = .Stock) :
    ∃ j, s.next_active_card none = some j := by
  by_cases hc : s.cards = []
  · exact ⟨0, by simp [Stack.next_active_card, hc, h]⟩
  · exact ⟨s.cards.length - 1, by simp [Stack.next_active_card, hc, h]⟩

theorem nextActiveSearch_reaches_stock (t : Table)
    (hst : (t.get_stack .Stock).stack_type = .Stock) :
    ∀ k stk, nextIter k stk = .Stock → ∀ fuel, k < fuel →
      ∃ s, t.nextActiveSearch fuel stk none = some s := by
  intro k
  induction k with
  | zero =>
    intro stk hiter fuel hf
    match fuel, hf with
    | f + 1, _ =>
      have hstk : stk = .Stock := hiter
      subst hstk
      obtain ⟨j, hj⟩ := stock_next_query _ hst
      exact ⟨⟨.Stock, j⟩, by simp [Table.nextActiveSearch, hj]⟩
  | succ k ih =>
    intro stk hiter fuel hf
    match fuel, hf with
    | f + 1, hf =>
      cases hq : (t.get_stack stk).next_active_card none with
      | some i => exact ⟨⟨stk, i⟩, by simp [Table.nextActiveSearch, hq]⟩
      | none =>
        obtain ⟨s, hs⟩ := ih stk.next hiter f (by omega)
        exact ⟨s, by simp [Table.nextActiveSearch, hq, hs]⟩

/-- The forward Selecting-mode ring search always succeeds (within one trip
around the ring): at the latest, the stock pile answers. -/
theorem next_active_card_succeeds (t : Table)
    (hst : (t.get_stack .Stock).stack_type = .Stock) (h2 : t.source.stack ≠ .Hand) :
    ∃ s, t.next_active_card = some s := by
  rw [Table.next_active_card]
  have h14 : (14 : Nat) = 13 + 1 := rfl
  rw [h14]
  cases hq : (t.get_stack t.source.stack).next_active_card (some t.source.index) with
  | some i => exact ⟨⟨t.source.stack, i⟩, by rw [Table.nextActiveSearch, hq]⟩
  | none =>
    have hne := next_ne_hand _ h2
    obtain ⟨hiter, hlt⟩ := distToStock_spec t.source.stack.next hne
    obtain ⟨s, hs⟩ := nextActiveSearch_reaches_stock t hst (distToStock t.source.stack.next)
      t.source.stack.next hiter 13 hlt
    refine ⟨s, ?_⟩
    rw [Table.nextActiveSearch, hq]
    exact hs

/-- A successful forward ring search lands on an index the pile itself
reports as active (for some bound). -/
theorem nextActiveSearch_active (t : Table) :
    ∀ fuel stk start s, t.nextActiveSearch fuel stk start = some s →
      ∃ st, (t.get_stack s.stack).next_active_card st = some s.index := by
  intro fuel
  induction fuel with
  | zero => intro stk start s h; exact absurd h (by simp [Table.nextActiveSearch])
  | succ f ih =>
    intro stk start s h
    rw [Table.nextActiveSearch] at h
    cases hq : (t.get_stack stk).next_active_card start with
    | some i =>
      rw [hq] at h
      cases h
      exact ⟨start, hq⟩
    | none =>
      rw [hq] at h
      exact ih stk.next none s h

theorem prevActiveSearch_active (t : Table) :
    ∀ fuel stk start s, t.prevActiveSearch fuel stk start = some s →
      ∃ st, (t.get_stack s.stack).previous_active_card st = some s.index := by
  intro fuel
  induction fuel with
  | zero => intro stk start s h; exact absurd h (by simp [Table.prevActiveSearch])
  | succ f ih =>
    intro stk start s h
    rw [Table.prevActiveSearch] at h
    cases hq : (t.get_stack stk).previous_active_card start with
    | some i =>
      rw [hq] at h
      cases h
      exact ⟨start, hq⟩
    | none =>
      rw [hq] at h
      exact ih stk.previous none s h

theorem prevActiveSearch_first (t : Table) (f : Nat) (stk : StackId) (start : Option Nat)
    (h : t.prevActiveSearch (f + 1) stk start = none) :
    (t.get_stack stk).previous_active_card start = none := by
  rw [Table.prevActiveSearch] at h
  cases hq : (t.get_stack stk).previous_active_card start with
  | some i => rw [hq] at h; exact absurd h (by simp)
  | none => rfl

/-- A failed backward ring search has queried (with no upper bound) every
pile it stepped through. -/
theorem prevActiveSearch_visits (t : Table) :
    ∀ fuel stk start, t.prevActiveSearch (fuel + 1) stk start = none →
      ∀ k, k < fuel → (t.get_stack (prevIter (k + 1) stk)).previous_active_card none = none := by
  intro fuel
  induction fuel with
  | zero => intro stk start _ k hk; omega
  | succ f ih =>
    intro stk start h k hk
    have hq : (t.get_stack stk).previous_active_card start = none :=
      prevActiveSearch_first t (f + 1) stk start h
    have hrec : t.prevActiveSearch (f + 1) stk.previous none = none := by
      rw [Table.prevActiveSearch, hq] at h
      exact h
    cases k with
    | zero => exact prevActiveSearch_first t f stk.previous none hrec
    | succ k2 => exact ih stk.previous none hrec k2 (by omega)

/-- If no pile answers a backward query with no bound, the backward search
fails at every fuel: the corresponding Rust loop runs forever. -/
theorem prevActiveSearch_none_forever (t : Table)
    (hall : ∀ id, (t.get_stack id).previous_active_card none = none) :
    ∀ fuel stk start, (t.get_stack stk).previous_active_card start = none →
      t.prevActiveSearch fuel stk start = none := by
  intro fuel
  induction fuel with
  | zero => intro stk start _; rfl
  | succ f ih =>
    intro stk start hq
    rw [Table.prevActiveSearch, hq]
    exact ih stk.previous none (hall stk.previous)

/-- C3 (amended): in Selecting mode, on every reachable state `go_next`
terminates and leaves `source` on an index the pile itself reports as
active; `go_previous` either does the same or diverges, and it diverges
exactly when no pile offers a backward active index (empty stock, empty
waste, empty foundations, and no face-up tableau card) — the empty stock
yields an active slot only for the forward search. -/
theorem C3_ring_termination (t : Table) (h : Reachable t) (he : t.in_hand.cards = []) :
    (∃ t2, t.go_next = some t2 ∧
       ∃ st, (t.get_stack t2.source.stack).next_active_card st = some t2.source.index)
  ∧ ((∃ t2, t.go_previous = some t2 ∧
       ∃ st, (t.get_stack t2.source.stack).previous_active_card st = some t2.source.index)
     ∨ (t.go_previous = none ∧
        ∀ id, (t.get_stack id).previous_active_card none = none)) := by
  obtain ⟨hty, hsrc, htgt⟩ := reachable_invariant h
  have hih : t.cards_in_hand = false := by
    simp [Table.cards_in_hand, he]
  constructor
  · obtain ⟨s, hs⟩ := next_active_card_succeeds t (hty .Stock) hsrc
    obtain ⟨st, hst⟩ := nextActiveSearch_active t 14 t.source.stack (some t.source.index) s hs
    exact ⟨{ t with source := s }, by simp [Table.go_next, hih, hs], st, hst⟩
  · cases hp : t.previous_active_card with
    | some s =>
      obtain ⟨st, hst⟩ := prevActiveSearch_active t 14 t.source.stack (some t.source.index) s hp
      exact Or.inl ⟨{ t with source := s }, by simp [Table.go_previous, hih, hp], st, hst⟩
    | none =>
      refine Or.inr ⟨by simp [Table.go_previous, hih, hp], ?_⟩
      intro id
      by_cases hid : id = .Hand
      · subst hid
        rw [← in_hand_get]
        simp [Stack.previous_active_card, he]
      · have hv := prevActiveSearch_visits t 13 t.source.stack (some t.source.index) hp
        obtain ⟨k, hk, hiter⟩ := exists_prevIter_bound t.source.stack id hsrc hid
        have := hv k hk
        rw [hiter] at this
        exact this

theorem reachable_dealN : ∀ (n : Nat) {t : Table}, Reachable t → Reachable (dealN n t) := by
  intro n
  induction n with
  | zero => intro t h; exact h
  | succ n ih => intro t h; exact ih (Reachable.deal h)

/-- The diverging table is reachable: gather all piles into the stock, deal
through the stock and recycle it (all 52 cards face-down), pick the whole
recycled stock up, steer the target to Tableau1 (legal: the hand's bottom
card is a king), and drop.  Every pickup happens with an empty hand and
index 0. -/
theorem reachable_divergeTable : Reachable divergeTable := by
  have h00 : Reachable (Table.new 7) := Reachable.new 7
  have h01 : Reachable g01 := Reachable.take_selected _ _ h00 (by decide) (Nat.zero_le _)
  have h02 : Reachable g02 := Reachable.put h01
  have h03 : Reachable g03 := Reachable.take_selected _ _ h02 (by decide) (Nat.zero_le _)
  have h04 : Reachable g04 := Reachable.put h03
  have h05 : Reachable g05 := Reachable.take_selected _ _ h04 (by decide) (Nat.zero_le _)
  have h06 : Reachable g06 := Reachable.put h05
  have h07 : Reachable g07 := Reachable.take_selected _ _ h06 (by decide) (Nat.zero_le _)
  have h08 : Reachable g08 := Reachable.put h07
  have h09 : Reachable g09 := Reachable.take_selected _ _ h08 (by decide) (Nat.zero_le _)
  have h10 : Reachable g10 := Reachable.put h09
  have h11 : Reachable g11 := Reachable.take_selected _ _ h10 (by decide) (Nat.zero_le _)
  have h12 : Reachable g12 := Reachable.put h11
  have h13 : Reachable g13 := Reachable.take_selected _ _ h12 (by decide) (Nat.zero_le _)
  have h14 : Reachable g14 := Reachable.put h13
  have h15 : Reachable g15 := reachable_dealN 19 h14
  have h16 : Reachable g16 := Reachable.take_selected _ _ h15 (by decide) (Nat.zero_le _)
  have h17 : Reachable g17 := Reachable.go_next h16 (by decide)
  exact Reachable.put h17

/-- At the diverging table the backward query of every pile fails with no
bound, so by `prevActiveSearch_none_forever` the backward ring search of
`Table::previous_active_card` fails at every fuel: the Rust loop runs
forever. -/
theorem divergeTable_go_previous_forever :
    ∀ fuel, divergeTable.prevActiveSearch fuel divergeTable.source.stack
      (some divergeTable.source.index) = none := fun fuel =>
  prevActiveSearch_none_forever divergeTable (by decide) fuel _ _ (by decide)

/-- C3 counterexample: a reachable Selecting-mode state on which
`go_previous` diverges (all 52 cards sit face-down on Tableau1 and every
other pile is empty; `Stack::previous_active_card` returns `None` for an
empty stock, unlike the forward direction, so the backward ring search finds
nothing — `divergeTable_go_previous_forever` shows `none` here means the
Rust loop never returns). -/
theorem C3_cex :
    Reachable divergeTable ∧ divergeTable.in_hand.cards = [] ∧
    divergeTable.go_previous = none :=
  ⟨reachable_divergeTable, by decide, by decide⟩

/-! ## Claim C2: the deal / recycle round trip -/

theorem dealtSeqN_congr : ∀ (n m : Nat) (l : List Card), l.length ≤ n → l.length ≤ m →
    dealtSeqN n l = dealtSeqN m l := by
  intro n
  induction n with
  | zero =>
    intro m l hn _
    have hl : l = [] := List.length_eq_zero.mp (Nat.le_zero.mp hn)
    subst hl
    cases m <;> simp [dealtSeqN]
  | succ n ih =>
    intro m l hn hm
    by_cases hl : l = []
    · subst hl
      cases m <;> simp [dealtSeqN]
    · have hpos : 0 < l.length := List.length_pos.mpr hl
      cases m with
      | zero => exact absurd (List.length_eq_zero.mp (Nat.le_zero.mp hm)) hl
      | succ m =>
        rw [dealtSeqN, dealtSeqN, if_neg hl, if_neg hl]
        have hlt : (l.take (l.length - min 3 l.length)).length ≤ n := by
          rw [List.length_take]
          omega
        have hlt2 : (l.take (l.length - min 3 l.length)).length ≤ m := by
          rw [List.length_take]
          omega
        rw [ih m _ hlt hlt2]

/-- The dealt sequence of a non-empty stock: the top group of up to three
cards first, then the dealt sequence of the rest. -/
theorem dealtSeq_step (l : List Card) (hl : l ≠ []) :
    dealtSeq l =
      l.drop (l.length - min 3 l.length) ++ dealtSeq (l.take (l.length - min 3 l.length)) := by
  have hpos : 0 < l.length := List.length_pos.mpr hl
  have h1 : dealtSeq l = dealtSeqN (l.length - 1 + 1) l := by
    rw [dealtSeq]
    congr 1
    omega
  rw [h1, dealtSeqN, if_neg hl]
  congr 1
  rw [dealtSeq]
  apply dealtSeqN_congr
  · rw [List.length_take]
    omega
  · rw [List.length_take]

theorem dealUntil_rhs_empty (t : Table) (hc : t.stock.cards = []) :
    ({ t with
        stock := { t.stock with cards := [] },
        waste := { t.waste with
          cards := t.waste.cards ++ (dealtSeq t.stock.cards).map setUp } } : Table) = t := by
  obtain ⟨st, wa, inh, f1, f2, f3, f4, u1, u2, u3, u4, u5, u6, u7, so, tg⟩ := t
  obtain ⟨sid, sty, scards⟩ := st
  obtain ⟨wid, wty, wcards⟩ := wa
  have hc2 : scards = [] := hc
  subst hc2
  simp [dealtSeq, dealtSeqN]

/-- Dealing until the stock is empty moves the whole dealt sequence of the
stock, face-up, onto the end of the waste, and changes nothing else. -/
theorem dealUntilN_spec : ∀ (n : Nat) (t : Table), t.stock.cards.length ≤ n →
    dealUntilN n t =
      { t with
        stock := { t.stock with cards := [] },
        waste := { t.waste with
          cards := t.waste.cards ++ (dealtSeq t.stock.cards).map setUp } } := by
  intro n
  induction n with
  | zero =>
    intro t hn
    have hc : t.stock.cards = [] := List.length_eq_zero.mp (Nat.le_zero.mp hn)
    rw [dealUntilN, dealUntil_rhs_empty t hc]
  | succ n ih =>
    intro t hn
    by_cases hc : t.stock.cards = []
    · rw [dealUntilN, if_pos hc, dealUntil_rhs_empty t hc]
    · have hpos : 0 < t.stock.cards.length := List.length_pos.mpr hc
      have hmin : ¬ (min 3 t.stock.cards.length = 0) := by omega
      have hdeal : t.deal_from_stock =
          { t with
            stock := { t.stock with
              cards := t.stock.cards.take (t.stock.cards.length - min 3 t.stock.cards.length) },
            waste := { t.waste with
              cards := t.waste.cards ++
                ((t.stock.cards.drop
                  (t.stock.cards.length - min 3 t.stock.cards.length)).map setUp) } } := by
        simp only [Table.deal_from_stock]
        rw [if_neg hmin]
        rfl
      rw [dealUntilN, if_neg hc, hdeal]
      have hlen2 :
          (t.stock.cards.take (t.stock.cards.length - min 3 t.stock.cards.length)).length ≤ n := by
        rw [List.length_take]
        omega
      rw [ih _ hlen2]
      simp [dealtSeq_step t.stock.cards hc, List.map_append, List.append_assoc]

theorem map_setDown_setUp (l : List Card) : (l.map setUp).map setDown = l.map setDown := by
  rw [List.map_map]
  rfl

/-- C2 counterexample: a six-card face-down stock with an empty waste;
dealing it out and recycling does not restore the original order (each dealt
group of three comes back internally reversed: the round trip sends
`[1,2,3,4,5,6]` to `[3,2,1,6,5,4]` reading bottom-to-top). -/
theorem C2_cex :
    cexDealTable.waste.cards = [] ∧
    (cexDealTable.stock.cards.all fun c => !c.face_up) = true ∧
    ((deal_until_empty cexDealTable).deal_from_stock).stock.cards ≠ cexDealTable.stock.cards := by
  decide

/-- C2 (amended): starting from a table whose waste is empty, dealing until
the stock is empty and then dealing once more (the recycle) leaves the waste
empty and refills the stock, all face-down, with the reverse of the dealt
sequence — the original order with each dealt group of up to three cards
internally reversed, not the original order itself. -/
theorem C2_deal_recycle (t : Table) (h : t.waste.cards = []) :
    (deal_until_empty t).deal_from_stock =
      { t with
        stock := { t.stock with cards := ((dealtSeq t.stock.cards).map setDown).reverse },
        waste := { t.waste with cards := [] } } := by
  rw [deal_until_empty, dealUntilN_spec t.stock.cards.length t (le_refl _)]
  simp only [Table.deal_from_stock]
  rw [h]
  simp [map_setDown_setUp]
  intro a _
  rfl

/-- Witness for `C2_deal_recycle` at the concrete six-card stock. -/
theorem C2_deal_recycle_witness :
    (deal_until_empty cexDealTable).deal_from_stock =
      { cexDealTable with
        stock := { cexDealTable.stock with
          cards := ((dealtSeq cexDealTable.stock.cards).map setDown).reverse },
        waste := { cexDealTable.waste with cards := [] } } :=
  C2_deal_recycle cexDealTable (by decide)

/-- Witness for `C3_ring_termination` at a freshly dealt table. -/
theorem C3_ring_termination_witness :
    (∃ t2, (Table.new 0).go_next = some t2 ∧
       ∃ st, ((Table.new 0).get_stack t2.source.stack).next_active_card st = some t2.source.index)
  ∧ ((∃ t2, (Table.new 0).go_previous = some t2 ∧
       ∃ st, ((Table.new 0).get_stack t2.source.stack).previous_active_card st
         = some t2.source.index)
     ∨ ((Table.new 0).go_previous = none ∧
        ∀ id, ((Table.new 0).get_stack id).previous_active_card none = none)) :=
  C3_ring_termination (Table.new 0) (Reachable.new 0) (by decide)

/-! ## Claim C1: conservation of the 52 cards -/

theorem pairsL_append (a b : List Card) : pairsL (a ++ b) = pairsL a ++ pairsL b :=
  List.map_append _ _ _

theorem pairs_take_drop (l : List Card) (j : Nat) (p : Suit × Rank) :
    (pairsL (l.take j)).count p + (pairsL (l.drop j)).count p = (pairsL l).count p := by
  rw [← List.count_append, ← pairsL_append, List.take_append_drop]

theorem pairsL_setUp (l : List Card) : pairsL (l.map setUp) = pairsL l := by
  rw [pairsL, List.map_map]
  rfl

theorem pairsL_mapLast (f : Card → Card) (hf : ∀ c, (f c).suit = c.suit ∧ (f c).rank = c.rank)
    (l : List Card) : pairsL (mapLast f l) = pairsL l := by
  induction l with
  | nil => rfl
  | cons c rest ih =>
    cases rest with
    | nil => simp [mapLast, pairsL, (hf c).1, (hf c).2]
    | cons c2 rest2 =>
      rw [mapLast]
      show (c.suit, c.rank) :: pairsL (mapLast f (c2 :: rest2)) = pairsL (c :: c2 :: rest2)
      rw [ih]
      rfl

theorem pairsL_setDown (l : List Card) : pairsL (l.map setDown) = pairsL l := by
  rw [pairsL, List.map_map]
  rfl

theorem count_deal (t : Table) (p : Suit × Rank) :
    (pairsL (tableCards t.deal_from_stock)).count p = (pairsL (tableCards t)).count p := by
  simp only [Table.deal_from_stock]
  split
  · simp only [tableCards, pairsL, List.map_append, List.count_append, List.map_reverse,
      List.count_reverse]
    have h1 : (List.map (fun c => (c.suit, c.rank))
        (t.waste.cards.map fun c => { c with face_up := false })) =
        List.map (fun c => (c.suit, c.rank)) t.waste.cards := by
      rw [List.map_map]
      rfl
    rw [h1]
    omega
  · simp only [tableCards, pairsL, List.map_append, List.count_append]
    have h1 : (List.map (fun c => (c.suit, c.rank))
        ((t.stock.cards.drop (t.stock.cards.length - min 3 t.stock.cards.length)).map
          fun c => { c with face_up := true })) =
        List.map (fun c => (c.suit, c.rank))
          (t.stock.cards.drop (t.stock.cards.length - min 3 t.stock.cards.length)) := by
      rw [List.map_map]
      rfl
    rw [h1]
    have h2 := pairs_take_drop t.stock.cards (t.stock.cards.length - min 3 t.stock.cards.length) p
    simp only [pairsL] at h2
    omega

theorem count_set_stack (t : Table) (id : StackId) (s2 : Stack) (p : Suit × Rank) :
    (pairsL (tableCards (t.set_stack id s2))).count p + (pairsL (t.get_stack id).cards).count p =
    (pairsL (tableCards t)).count p + (pairsL s2.cards).count p := by
  cases id <;>
    simp only [Table.set_stack, Table.get_stack, tableCards, pairsL, List.map_append,
      List.count_append] <;>
    omega

theorem count_expose (t : Table) (id : StackId) (p : Suit × Rank) :
    (pairsL (tableCards (t.expose_top_card_of_stack id))).count p =
    (pairsL (tableCards t)).count p := by
  rw [Table.expose_top_card_of_stack]
  have h := count_set_stack t id ((t.get_stack id).expose_top_card) p
  have h2 : pairsL ((t.get_stack id).expose_top_card).cards = pairsL (t.get_stack id).cards :=
    pairsL_mapLast (fun c => { c with face_up := true }) (fun c => ⟨rfl, rfl⟩) _
  rw [h2] at h
  omega

theorem count_take_top (t : Table) (id : StackId) (p : Suit × Rank) :
    (pairsL (tableCards (t.take_top_card_from_stack id))).count p =
    (pairsL (tableCards t)).count p := by
  simp only [Table.take_top_card_from_stack]
  split
  · rfl
  · rename_i c hg
    have hne : (t.get_stack id).cards ≠ [] := by
      intro hh
      rw [hh] at hg
      simp at hg
    have hc : (t.get_stack id).cards.getLast hne = c := by
      rw [List.getLast?_eq_getLast _ hne] at hg
      exact Option.some.inj hg
    set t2 := t.set_stack id { t.get_stack id with cards := (t.get_stack id).cards.dropLast }
      with ht2
    show (pairsL (tableCards (t2.set_stack .Hand { t2.in_hand with
      cards := t2.in_hand.cards ++ [{ c with face_up := true }] }))).count p =
      (pairsL (tableCards t)).count p
    have h1 : (pairsL (tableCards t2)).count p + (pairsL (t.get_stack id).cards).count p =
        (pairsL (tableCards t)).count p + (pairsL ((t.get_stack id).cards.dropLast)).count p :=
      count_set_stack t id { t.get_stack id with cards := (t.get_stack id).cards.dropLast } p
    have h2 : (pairsL (tableCards (t2.set_stack .Hand { t2.in_hand with
        cards := t2.in_hand.cards ++ [{ c with face_up := true }] }))).count p +
        (pairsL t2.in_hand.cards).count p =
        (pairsL (tableCards t2)).count p +
        (pairsL (t2.in_hand.cards ++ [{ c with face_up := true }])).count p :=
      count_set_stack t2 .Hand _ p
    rw [pairsL_append, List.count_append] at h2
    have h6 : pairsL [({ c with face_up := true } : Card)] = [(c.suit, c.rank)] := rfl
    rw [h6] at h2
    have h5 : (pairsL (t.get_stack id).cards).count p =
        (pairsL (t.get_stack id).cards.dropLast).count p + List.count p [(c.suit, c.rank)] := by
      conv_lhs => rw [← List.dropLast_append_getLast hne]
      rw [pairsL_append, List.count_append, hc]
      rfl
    rw [h5] at h1
    omega

theorem count_take_selected (t : Table) (id : StackId) (index : Nat)
    (he : t.in_hand.cards = []) (p : Suit × Rank) :
    (pairsL (tableCards (t.take_selected_cards_from_stack id index))).count p =
    (pairsL (tableCards t)).count p := by
  simp only [Table.take_selected_cards_from_stack]
  have hsplit := pairs_take_drop (t.get_stack id).cards index p
  set t2 := t.set_stack id { t.get_stack id with cards := (t.get_stack id).cards.take index }
    with ht2
  have h1 : (pairsL (tableCards t2)).count p + (pairsL (t.get_stack id).cards).count p =
      (pairsL (tableCards t)).count p + (pairsL ((t.get_stack id).cards.take index)).count p :=
    count_set_stack t id { t.get_stack id with cards := (t.get_stack id).cards.take index } p
  split
  · rename_i hlen
    show (pairsL (tableCards (t2.set_stack .Hand { t2.in_hand with
      cards := (t.get_stack id).cards.drop index }))).count p = (pairsL (tableCards t)).count p
    have h2 : (pairsL (tableCards (t2.set_stack .Hand { t2.in_hand with
        cards := (t.get_stack id).cards.drop index }))).count p +
        (pairsL t2.in_hand.cards).count p =
        (pairsL (tableCards t2)).count p +
        (pairsL ((t.get_stack id).cards.drop index)).count p :=
      count_set_stack t2 .Hand _ p
    have hhand : t2.in_hand.cards = [] := by
      by_cases hid : id = .Hand
      · subst hid
        have hg : (t.get_stack .Hand).cards = [] := he
        rw [hg] at hlen
        simp at hlen
      · have hgs : t2.get_stack .Hand = t.get_stack .Hand :=
          get_set_ne t _ (fun hh => hid hh.symm)
        have hgs2 : t2.in_hand = t2.get_stack .Hand := rfl
        rw [hgs2, hgs]
        exact he
    rw [hhand] at h2
    have hnil : pairsL ([] : List Card) = [] := rfl
    rw [hnil, List.count_nil] at h2
    omega
  · rename_i hlen
    have hdrop : (t.get_stack id).cards.drop index = [] := by
      have hz : ((t.get_stack id).cards.drop index).length = 0 := by omega
      exact List.length_eq_zero.mp hz
    rw [hdrop] at hsplit
    have hnil : pairsL ([] : List Card) = [] := rfl
    rw [hnil, List.count_nil] at hsplit
    omega

theorem tableCards_source_update (t : Table) (x : Source) :
    tableCards { t with source := x } = tableCards t := rfl

theorem count_put (t : Table) (p : Suit × Rank) :
    (pairsL (tableCards t.put_hand_on_target)).count p = (pairsL (tableCards t)).count p := by
  simp only [Table.put_hand_on_target]
  rw [tableCards_source_update]
  rw [count_expose]
  rw [hand_update_as_set]
  set t2 := t.set_stack .Hand { t.in_hand with cards := [] } with ht2
  show (pairsL (tableCards (t2.set_stack t.target { t2.get_stack t.target with
    cards := (t2.get_stack t.target).cards ++ t.in_hand.cards }))).count p =
    (pairsL (tableCards t)).count p
  have h0 : (pairsL (tableCards t2)).count p + (pairsL t.in_hand.cards).count p =
      (pairsL (tableCards t)).count p + (pairsL ([] : List Card)).count p :=
    count_set_stack t .Hand { t.in_hand with cards := [] } p
  have h1 : (pairsL (tableCards (t2.set_stack t.target { t2.get_stack t.target with
      cards := (t2.get_stack t.target).cards ++ t.in_hand.cards }))).count p +
      (pairsL (t2.get_stack t.target).cards).count p =
      (pairsL (tableCards t2)).count p +
      (pairsL ((t2.get_stack t.target).cards ++ t.in_hand.cards)).count p :=
    count_set_stack t2 t.target _ p
  rw [pairsL_append, List.count_append] at h1
  have hnil : pairsL ([] : List Card) = [] := rfl
  rw [hnil, List.count_nil] at h0
  omega


theorem getD_cons_eraseIdx (l : List Card) (k : Nat) (h : k < l.length) :
    (l.getD k default :: l.eraseIdx k).Perm l := by
  induction l generalizing k with
  | nil => simp at h
  | cons c rest ih =>
    cases k with
    | zero => exact List.Perm.refl _
    | succ k2 =>
      have h2 : k2 < rest.length := by simpa using h
      have hswap : ((c :: rest).getD (k2 + 1) default :: (c :: rest).eraseIdx (k2 + 1)).Perm
          (c :: rest.getD k2 default :: rest.eraseIdx k2) := by
        show (rest.getD k2 default :: c :: rest.eraseIdx k2).Perm _
        exact List.Perm.swap _ _ _
      exact hswap.trans ((ih k2 h2).cons c)

theorem fyN_perm : ∀ (n s : Nat) (l : List Card), l.length ≤ n → (fyN n s l).Perm l := by
  intro n
  induction n with
  | zero =>
    intro s l h
    have hl : l = [] := List.length_eq_zero.mp (Nat.le_zero.mp h)
    subst hl
    exact List.Perm.refl _
  | succ n ih =>
    intro s l h
    cases l with
    | nil => exact List.Perm.refl _
    | cons c rest =>
      rw [fyN]
      have hk : (s / 2 ^ 16) % (c :: rest).length < (c :: rest).length :=
        Nat.mod_lt _ (by simp)
      have h3 : ((c :: rest).eraseIdx ((s / 2 ^ 16) % (c :: rest).length)).length ≤ n := by
        rw [List.length_eraseIdx]
        rw [if_pos hk]
        omega
      exact ((ih _ _ h3).cons _).trans (getD_cons_eraseIdx _ _ hk)

theorem make_deck_perm (seed : Nat) : (make_deck seed).Perm baseDeck :=
  fyN_perm baseDeck.length (lcgStep seed) baseDeck (le_refl _)

theorem count_perm_pairs {l1 l2 : List (Suit × Rank)} (h : l1.Perm l2) (p : Suit × Rank) :
    l1.count p = l2.count p := by
  rw [List.count_eq_countP, List.count_eq_countP]
  exact h.countP_eq _

theorem count_make_deck (seed : Nat) (p : Suit × Rank) :
    (pairsL (make_deck seed)).count p = (pairsL baseDeck).count p := by
  have hp : (pairsL (make_deck seed)).Perm (pairsL baseDeck) :=
    (make_deck_perm seed).map _
  exact count_perm_pairs hp p

theorem flip_cards_literal (id : StackId) (ty : StackType) (cs : List Card) :
    (Stack.flip_top_card { stack_id := id, stack_type := ty, cards := cs }).cards =
      mapLast (fun c => { c with face_up := !c.face_up }) cs := rfl

theorem count_new (seed : Nat) (p : Suit × Rank) :
    (pairsL (tableCards (Table.new seed))).count p = (pairsL baseDeck).count p := by
  rw [← count_make_deck seed p]
  simp only [Table.new, tableCards]
  generalize make_deck seed = l
  set d1 := List.drop (l.length - 1) l with hd1
  set l1 := List.take (l.length - 1) l with hl1
  set d2 := List.drop (l1.length - 2) l1 with hd2
  set l2 := List.take (l1.length - 2) l1 with hl2
  set d3 := List.drop (l2.length - 3) l2 with hd3
  set l3 := List.take (l2.length - 3) l2 with hl3
  set d4 := List.drop (l3.length - 4) l3 with hd4
  set l4 := List.take (l3.length - 4) l3 with hl4
  set d5 := List.drop (l4.length - 5) l4 with hd5
  set l5 := List.take (l4.length - 5) l4 with hl5
  set d6 := List.drop (l5.length - 6) l5 with hd6
  set l6 := List.take (l5.length - 6) l5 with hl6
  set d7 := List.drop (l6.length - 7) l6 with hd7
  set l7 := List.take (l6.length - 7) l6 with hl7
  have hml : ∀ cs : List Card,
      pairsL (mapLast (fun c => { c with face_up := !c.face_up }) cs) = pairsL cs :=
    pairsL_mapLast _ (fun c => ⟨rfl, rfl⟩)
  have hnil : pairsL ([] : List Card) = [] := rfl
  simp only [flip_cards_literal, hml, pairsL_append, List.count_append, hnil, List.count_nil]
  have e1 := pairs_take_drop l (l.length - 1) p
  have e2 := pairs_take_drop l1 (l1.length - 2) p
  have e3 := pairs_take_drop l2 (l2.length - 3) p
  have e4 := pairs_take_drop l3 (l3.length - 4) p
  have e5 := pairs_take_drop l4 (l4.length - 5) p
  have e6 := pairs_take_drop l5 (l5.length - 6) p
  have e7 := pairs_take_drop l6 (l6.length - 7) p
  rw [← hl1, ← hd1] at e1
  rw [← hl2, ← hd2] at e2
  rw [← hl3, ← hd3] at e3
  rw [← hl4, ← hd4] at e4
  rw [← hl5, ← hd5] at e5
  rw [← hl6, ← hd6] at e6
  rw [← hl7, ← hd7] at e7
  omega

theorem count_reachable {t : Table} (h : Reachable t) :
    ∀ p : Suit × Rank, (pairsL (tableCards t)).count p = (pairsL baseDeck).count p := by
  induction h with
  | new seed => exact fun p => count_new seed p
  | deal _ ih => intro p; rw [count_deal]; exact ih p
  | expose id _ ih => intro p; rw [count_expose]; exact ih p
  | take_top id _ _ ih => intro p; rw [count_take_top]; exact ih p
  | take_selected id index _ he _ ih => intro p; rw [count_take_selected _ _ _ he]; exact ih p
  | put _ ih => intro p; rw [count_put]; exact ih p
  | go_next _ hg ih =>
    intro p
    rw [Table.go_next] at hg
    split at hg
    · obtain ⟨r, _, rfl⟩ := Option.map_eq_some'.mp hg
      exact ih p
    · obtain ⟨s, _, rfl⟩ := Option.map_eq_some'.mp hg
      exact ih p
  | go_previous _ hg ih =>
    intro p
    rw [Table.go_previous] at hg
    split at hg
    · obtain ⟨r, _, rfl⟩ := Option.map_eq_some'.mp hg
      exact ih p
    · obtain ⟨s, _, rfl⟩ := Option.map_eq_some'.mp hg
      exact ih p

/-- C1: on every table reachable from `Table.new` by public operations under
the stated preconditions, the multiset of (suit, rank) pairs over the stock,
the waste, the four foundations, the seven tableaux and the hand holds each
of the 52 suit-rank pairs exactly once. -/
theorem C1_conservation (t : Table) (h : Reachable t) (s : Suit) (r : Rank) :
    (pairsL (tableCards t)).count (s, r) = 1 := by
  rw [count_reachable h (s, r)]
  revert s r
  decide

/-- Witness for `C1_conservation` at a freshly dealt table. -/
theorem C1_conservation_witness :
    (pairsL (tableCards (Table.new 0))).count (Suit.Diamond, Rank.Ace) = 1 :=
  C1_conservation (Table.new 0) (Reachable.new 0) Suit.Diamond Rank.Ace

end Klondike
